import Mathlib

/-!
# Verification of the `geometry_common` feature-extraction core

A shallow embedding, over exact rationals, of the point-clustering,
line-fitting, piecewise-segmentation and segment-consolidation routines of
`src/Utils.cpp` (together with the parts of `Point2D` and `LineSegment2D`
they use), and proofs settling the frozen claims about them.

Modelling conventions:

* C++ `float` scalars are modelled as `ℚ`; the decimal epsilon constants of
  the source (`1e-8`, `1e-9`, `1e-10`) are kept as exact rationals.
* `pts[i]` on a `std::vector` is modelled as `List.getD i origin`; every
  claim-relevant execution path only indexes in bounds (out-of-bounds access
  in the C++ is undefined behaviour, and where a claim hinges on such a path
  we model the function as `Option`-valued and return `none`).
* A comparison `distTo(p, q) < d` (a `sqrt` compared with a threshold) is
  modelled by the exact equivalent `0 < d ∧ sqDist p q < d * d`
  (for `s ≥ 0` real arithmetic gives `sqrt s < d ↔ 0 < d ∧ s < d * d`).
* The only transcendental test of the source, the angular gate
  `|calcShortestAngle(s1.angle(), s2.angle())| < angle_threshold`
  (`atan2`-based), is kept as an explicit Boolean parameter `angClose` of
  the consolidation passes.  Universally quantified theorems quantify over
  this parameter and therefore cover the real instantiation at every
  threshold; concrete evaluations instantiate it with
  `fun _ _ => true` (exact for any `angle_threshold` above `π`, since the
  shortest angle always lies in `(-π, π]`) or with the dot-product test
  `0 < dot (dir s1) (dir s2)` (exact for `angle_threshold = π/2`, since
  for nonzero direction vectors `|Δθ| < π/2 ↔ cos Δθ > 0` and
  `cos Δθ = dot (dir s1) (dir s2) / (‖dir s1‖ * ‖dir s2‖)`).
* `std::rand()` is modelled by an explicit stream `rands : ℕ → ℕ` together
  with a cursor counting the calls made so far.
-/

namespace GeometryCommon

/-- 2D point with rational coordinates; models `kelo::geometry_common::Point2D`
(`{x, y}` floats, default-constructed to the origin). -/
structure Point2D where
  x : ℚ
  y : ℚ
deriving DecidableEq, Repr, Inhabited

namespace Point2D

def origin : Point2D := ⟨0, 0⟩

def add (p q : Point2D) : Point2D := ⟨p.x + q.x, p.y + q.y⟩

def sub (p q : Point2D) : Point2D := ⟨p.x - q.x, p.y - q.y⟩

def scale (p : Point2D) (s : ℚ) : Point2D := ⟨p.x * s, p.y * s⟩

/-- `Point2D::operator/`: the divisor is replaced by `1e-9` when its absolute
value is below `1e-9` ("to fix divide by zero issue"). -/
def divScalar (p : Point2D) (s : ℚ) : Point2D :=
  let s' := if |s| < 1 / 10 ^ 9 then 1 / 10 ^ 9 else s
  p.scale (1 / s')

def dotProduct (p q : Point2D) : ℚ := p.x * q.x + p.y * q.y

/-- Modelled from the spec: `Point2D::squaredDistTo` (declared in the absent
header `Point2D.h`) — the squared Euclidean distance between two points. -/
def squaredDistTo (p q : Point2D) : ℚ := (p.x - q.x) ^ 2 + (p.y - q.y) ^ 2

end Point2D

/-- Exact model of the comparison `sqrt s < d` for `s ≥ 0` (used wherever the
source compares a Euclidean `distTo` with a threshold). -/
def sqrtLt (s d : ℚ) : Bool := decide (0 < d ∧ s < d * d)

/-! ## Clustering engine (`Utils::clusterPoints`, `Utils::clusterOrderedPoints`) -/

/-- Inner flood-fill of `Utils::clusterPoints`: repeatedly pop the front of
the fringe into the cluster, and move every remaining point whose squared
distance to the popped point is (strictly) below `thresholdSq` from the
remaining pool onto the back of the fringe.  Returns the collected cluster
(in pop order) and the depleted pool. -/
def floodFill (thresholdSq : ℚ) : List Point2D → List Point2D →
    List Point2D × List Point2D
  | [], remaining => ([], remaining)
  | f :: fringe, remaining =>
      let near := remaining.filter (fun p => decide (f.squaredDistTo p < thresholdSq))
      let far := remaining.filter
        (fun p => !decide (f.squaredDistTo p < thresholdSq))
      let rest := floodFill thresholdSq (fringe ++ near) far
      (f :: rest.1, rest.2)
termination_by fringe remaining => fringe.length + remaining.length
decreasing_by
  have h := (List.filter_append_perm
    (fun p => decide (f.squaredDistTo p < thresholdSq)) remaining).length_eq
  simp only [List.length_append] at h ⊢
  simp only [List.length_cons]
  omega

/-- The two lists returned by `floodFill` are together a permutation of the
fringe and the pool it started from: flood-filling neither drops nor
duplicates any point occurrence. -/
theorem floodFill_perm (thresholdSq : ℚ) (fringe remaining : List Point2D) :
    ((floodFill thresholdSq fringe remaining).1 ++
      (floodFill thresholdSq fringe remaining).2).Perm (fringe ++ remaining) := by
  induction fringe, remaining using floodFill.induct thresholdSq with
  | case1 remaining => simp [floodFill]
  | case2 f fringe remaining near far ih =>
      rw [floodFill]
      simp only [List.cons_append]
      refine List.Perm.cons f (ih.trans ?_)
      have h2 : (near ++ far).Perm remaining := List.filter_append_perm _ remaining
      have h3 : ((fringe ++ near) ++ far).Perm (fringe ++ (near ++ far)) := by
        rw [List.append_assoc]
      exact h3.trans (List.Perm.append_left fringe h2)

/-- Flood-filling never grows the remaining pool. -/
theorem floodFill_snd_length_le (thresholdSq : ℚ)
    (fringe remaining : List Point2D) :
    (floodFill thresholdSq fringe remaining).2.length ≤ remaining.length := by
  induction fringe, remaining using floodFill.induct thresholdSq with
  | case1 remaining => simp [floodFill]
  | case2 f fringe remaining near far ih =>
      rw [floodFill]
      exact le_trans ih (List.length_filter_le _ remaining)

/-- Outer loop of `Utils::clusterPoints`: pop the front of the pool,
flood-fill its cluster, and keep the cluster iff its size (strictly) exceeds
`min_cluster_size`. -/
def clusterPointsLoop (thresholdSq : ℚ) (min_cluster_size : ℕ) :
    List Point2D → List (List Point2D)
  | [] => []
  | p :: rest =>
      let fill := floodFill thresholdSq [p] rest
      if min_cluster_size < fill.1.length then
        fill.1 :: clusterPointsLoop thresholdSq min_cluster_size fill.2
      else
        clusterPointsLoop thresholdSq min_cluster_size fill.2
termination_by l => l.length
decreasing_by
  all_goals
    have h := floodFill_snd_length_le thresholdSq [p] rest
    simp only [List.length_cons]
    omega

/-- `Utils::clusterPoints(points, cluster_distance_threshold,
min_cluster_size)`: proximity-graph clustering with squared-distance
threshold `cluster_distance_threshold²`. -/
def clusterPoints (points : List Point2D) (cluster_distance_threshold : ℚ)
    (min_cluster_size : ℕ) : List (List Point2D) :=
  clusterPointsLoop (cluster_distance_threshold ^ 2) min_cluster_size points

/-- Inner scan of `Utils::clusterOrderedPoints`: walk the remaining pool in
order, greedily appending every point whose squared distance to the current
cluster's last point (`cluster.back()`) is below the threshold; return the
extension of the cluster and the untouched points. -/
def orderedCollect (thresholdSq : ℚ) (back : Point2D) :
    List Point2D → List Point2D × List Point2D
  | [] => ([], [])
  | p :: rest =>
      if back.squaredDistTo p < thresholdSq then
        let next := orderedCollect thresholdSq p rest
        (p :: next.1, next.2)
      else
        let next := orderedCollect thresholdSq back rest
        (next.1, p :: next.2)

/-- The greedy scan never grows the pool of untouched points. -/
theorem orderedCollect_snd_length_le (thresholdSq : ℚ) (back : Point2D)
    (l : List Point2D) :
    (orderedCollect thresholdSq back l).2.length ≤ l.length := by
  induction l generalizing back with
  | nil => simp [orderedCollect]
  | cons p rest ih =>
      rw [orderedCollect]
      by_cases h : back.squaredDistTo p < thresholdSq
      · simpa [h] using le_trans (ih p) (Nat.le_succ _)
      · simpa [h] using ih back

/-- Linear pass of `Utils::clusterOrderedPoints` (everything before the
360°-wraparound fix-up): pop the pool's front, collect its greedy cluster,
and keep the cluster iff its size (strictly) exceeds `min_cluster_size`. -/
def clusterOrderedPointsPass (thresholdSq : ℚ) (min_cluster_size : ℕ) :
    List Point2D → List (List Point2D)
  | [] => []
  | p :: rest =>
      let collected := orderedCollect thresholdSq p rest
      let cluster := p :: collected.1
      if min_cluster_size < cluster.length then
        cluster :: clusterOrderedPointsPass thresholdSq min_cluster_size collected.2
      else
        clusterOrderedPointsPass thresholdSq min_cluster_size collected.2
termination_by l => l.length
decreasing_by
  all_goals
    have h := orderedCollect_snd_length_le thresholdSq p rest
    simp only [List.length_cons]
    omega

/-- The 360°-wraparound fix-up of `Utils::clusterOrderedPoints`: when more
than one cluster was found and the first point of the first cluster is within
threshold of the last point of the last cluster, the last cluster is
prepended into the first one (and dropped from the back).  The two `headD` /
`getLastD` defaults model `front()` / `back()`, which the source only invokes
on nonempty clusters. -/
def wrapAroundMerge (thresholdSq : ℚ) (clusters : List (List Point2D)) :
    List (List Point2D) :=
  if 1 < clusters.length ∧
      ((clusters.headD []).headD Point2D.origin).squaredDistTo
        ((clusters.getLastD []).getLastD Point2D.origin) < thresholdSq then
    ((clusters.getLastD []) ++ clusters.headD []) :: (clusters.tail).dropLast
  else
    clusters

/-- `Utils::clusterOrderedPoints(points, cluster_distance_threshold,
min_cluster_size)`: linear greedy pass over angularly ordered points followed
by the wraparound merge. -/
def clusterOrderedPoints (points : List Point2D)
    (cluster_distance_threshold : ℚ) (min_cluster_size : ℕ) :
    List (List Point2D) :=
  wrapAroundMerge (cluster_distance_threshold ^ 2)
    (clusterOrderedPointsPass (cluster_distance_threshold ^ 2)
      min_cluster_size points)

/-! ### Clustering lemmas -/

/-- A flood fill started from a nonempty fringe collects at least one point. -/
theorem floodFill_fst_length_pos (thresholdSq : ℚ) (p : Point2D)
    (fringe remaining : List Point2D) :
    0 < (floodFill thresholdSq (p :: fringe) remaining).1.length := by
  rw [floodFill]
  simp

/-- Discovering clusters commutes with the size filter: the loop with a
minimum size keeps exactly the discovered clusters (the `min_cluster_size = 0`
run) whose size strictly exceeds the minimum. -/
theorem clusterPointsLoop_filter (t : ℚ) (m : ℕ) (pts : List Point2D) :
    clusterPointsLoop t m pts
      = (clusterPointsLoop t 0 pts).filter (fun c => decide (m < c.length)) := by
  induction pts using clusterPointsLoop.induct t m with
  | case1 => simp [clusterPointsLoop]
  | case2 p rest fill h ih =>
      rw [clusterPointsLoop, clusterPointsLoop]
      simp only [if_pos h, if_pos (floodFill_fst_length_pos t p [] rest),
        List.filter_cons, decide_eq_true_eq, ih]
  | case3 p rest fill h ih =>
      rw [clusterPointsLoop, clusterPointsLoop]
      simp only [if_neg h, if_pos (floodFill_fst_length_pos t p [] rest),
        List.filter_cons, decide_eq_true_eq, ih]

/-- The discovered clusters (before size filtering) are together a
permutation of the input cloud. -/
theorem clusterPointsLoop_join_perm (t : ℚ) (pts : List Point2D) :
    (clusterPointsLoop t 0 pts).flatten.Perm pts := by
  induction pts using clusterPointsLoop.induct t 0 with
  | case1 => simp [clusterPointsLoop]
  | case2 p rest fill h ih =>
      rw [clusterPointsLoop]
      simp only [if_pos h, List.flatten_cons]
      exact (List.Perm.append_left fill.1 ih).trans (floodFill_perm t [p] rest)
  | case3 p rest fill h ih =>
      exact absurd (floodFill_fst_length_pos t p [] rest) h

/-- Joining respects the sublist order. -/
theorem sublist_join {α : Type} {l₁ l₂ : List (List α)} (h : l₁.Sublist l₂) :
    l₁.flatten.Sublist l₂.flatten := by
  induction h with
  | slnil => simp
  | cons a h ih =>
      simp only [List.flatten_cons]
      exact ih.trans (List.sublist_append_right a _)
  | cons₂ a h ih =>
      simp only [List.flatten_cons]
      exact ih.append_left a

/-- Every cluster kept by the ordered linear pass has more than
`min_cluster_size` points. -/
theorem clusterOrderedPointsPass_length (t : ℚ) (m : ℕ) (pts : List Point2D) :
    ∀ c ∈ clusterOrderedPointsPass t m pts, m < c.length := by
  induction pts using clusterOrderedPointsPass.induct t m with
  | case1 => simp [clusterOrderedPointsPass]
  | case2 p rest collected cluster h ih =>
      rw [clusterOrderedPointsPass]
      simp only [if_pos h, List.mem_cons]
      rintro c (rfl | hc)
      · exact h
      · exact ih c hc
  | case3 p rest collected cluster h ih =>
      rw [clusterOrderedPointsPass]
      simp only [if_neg h]
      exact ih

/-- Every cluster returned after the wraparound fix-up is a kept cluster of
the pass, or (when the merge fired, which requires more than one cluster) the
concatenation of the pass's last and first clusters. -/
theorem wrapAroundMerge_mem (t : ℚ) (clusters : List (List Point2D)) :
    ∀ c ∈ wrapAroundMerge t clusters,
      c ∈ clusters ∨
        (1 < clusters.length ∧
          c = clusters.getLastD [] ++ clusters.headD []) := by
  intro c hc
  rw [wrapAroundMerge] at hc
  split at hc
  case isTrue h =>
    rcases List.mem_cons.1 hc with rfl | hmem
    · exact Or.inr ⟨h.1, rfl⟩
    · exact Or.inl ((List.dropLast_sublist _).subset.trans
        (List.tail_sublist clusters).subset hmem)
  case isFalse h => exact Or.inl hc

/-- For a nonempty list, `headD` and `getLastD` are members. -/
theorem headD_mem_of_ne_nil {α : Type} {l : List α} (h : l ≠ []) (d : α) :
    l.headD d ∈ l := by
  cases l with
  | nil => exact absurd rfl h
  | cons a l => exact List.mem_cons_self a l

theorem getLastD_mem_of_ne_nil {α : Type} {l : List α} (h : l ≠ []) (d : α) :
    l.getLastD d ∈ l := by
  cases l with
  | nil => exact absurd rfl h
  | cons a l =>
      rw [List.getLastD_eq_getLast?, List.getLast?_eq_getLast (a :: l) (by simp),
        Option.getD_some]
      exact List.getLast_mem _

/-! ## Line segments and shared geometric helpers -/

/-- `kelo::geometry_common::LineSegment2D`: a pair of points.  The C++ field
`end` is a Lean keyword, so it is named `endp` here.  Default-constructed as
two coincident origin points. -/
structure LineSegment2D where
  start : Point2D
  endp : Point2D
deriving DecidableEq, Repr, Inhabited

/-- The direction vector `end - start` (the argument of
`LineSegment2D::angle()`'s `atan2`). -/
def LineSegment2D.dir (s : LineSegment2D) : Point2D := s.endp.sub s.start

/-- `Utils::clip(value, max_limit, min_limit)`. -/
def clip (value max_limit min_limit : ℚ) : ℚ :=
  max (min value max_limit) min_limit

/-- `Utils::calcProjectedPointOnLine(line_start, line_end, p, is_segment)`:
project `p` onto the line through the two points, clipping the parameter to
`[0, 1]` when treating it as a segment; a degenerate line (squared length
below `1e-10`) projects everything to `line_start`. -/
def calcProjectedPointOnLine (line_start line_end p : Point2D)
    (is_segment : Bool) : Point2D :=
  let length_sq := line_start.squaredDistTo line_end
  if length_sq < 1 / 10 ^ 10 then
    line_start
  else
    let p_vec := p.sub line_start
    let line_vec := line_end.sub line_start
    let t := p_vec.dotProduct line_vec / length_sq
    let t := if is_segment then clip t 1 0 else t
    line_start.add (line_vec.scale t)

/-- `Utils::calcSquaredDistToLine(a, b, p, is_segment)` (the point-pair
overload): squared distance of `p` to its projection. -/
def calcSquaredDistToLine (a b p : Point2D) (is_segment : Bool) : ℚ :=
  p.squaredDistTo (calcProjectedPointOnLine a b p is_segment)

/-- `LineSegment2D::squaredMinDistTo(p)`: squared distance of `p` to the
closest point of the segment. -/
def LineSegment2D.squaredMinDistTo (s : LineSegment2D) (p : Point2D) : ℚ :=
  calcSquaredDistToLine s.start s.endp p true

/-! ## Segment consolidation (`Utils::mergeCloseLines`,
`Utils::mergeCloseLinesBF`, `Utils::mergeCoLinearLines`)

Each pass takes the angular gate
`|calcShortestAngle(s1.angle(), s2.angle())| < angle_threshold` as the
Boolean parameter `angClose` (see the header comment). -/

/-- Always-true angular gate: the exact value of the source's angular test
for any `angle_threshold` above `π`, since `calcShortestAngle` always
returns a value in `(-π, π]`. -/
def angAlways : LineSegment2D → LineSegment2D → Bool := fun _ _ => true

/-- Dot-product angular gate: the exact value of the source's angular test
at `angle_threshold = π/2` on segments with nonzero direction vectors, since
`|Δθ| < π/2 ↔ cos Δθ > 0` and
`cos Δθ = dot (dir s1) (dir s2) / (‖dir s1‖ * ‖dir s2‖)`. -/
def angRightAngle (s1 s2 : LineSegment2D) : Bool :=
  decide (0 < s1.dir.dotProduct s2.dir)

/-- Loop of `Utils::mergeCloseLines`: scan consecutive segments left to
right; when segment `i`'s end is within `distance_threshold` of segment
`i+1`'s start and the angular gate passes, absorb `i+1` into `i`
(`i.end := (i+1).end`, erase `i+1`) and re-examine the same position,
otherwise advance. -/
def mergeCloseLoop (angClose : LineSegment2D → LineSegment2D → Bool)
    (distance_threshold : ℚ) : List LineSegment2D → List LineSegment2D
  | [] => []
  | [s] => [s]
  | s1 :: s2 :: rest =>
      if sqrtLt (s1.endp.squaredDistTo s2.start) distance_threshold &&
          angClose s1 s2 then
        mergeCloseLoop angClose distance_threshold
          ({ start := s1.start, endp := s2.endp } :: rest)
      else
        s1 :: mergeCloseLoop angClose distance_threshold (s2 :: rest)
termination_by l => l.length

/-- `Utils::mergeCloseLines(line_segments, distance_threshold,
angle_threshold)`; lists with fewer than two segments are returned
unchanged. -/
def mergeCloseLines (angClose : LineSegment2D → LineSegment2D → Bool)
    (distance_threshold : ℚ) (line_segments : List LineSegment2D) :
    List LineSegment2D :=
  if line_segments.length < 2 then line_segments
  else mergeCloseLoop angClose distance_threshold line_segments

/-- Inner scan of `Utils::mergeCloseLinesBF` at separation `skip_index`:
examine the pair `(i, i+skip)`; if the angular gate passes and either the
end-to-start or the start-to-end gap is within `distance_threshold`, absorb
segment `i+skip` into segment `i` and re-examine the same `i`, otherwise
advance `i`. -/
def bfInner (angClose : LineSegment2D → LineSegment2D → Bool)
    (distance_threshold : ℚ) (skip : ℕ) (i : ℕ) (l : List LineSegment2D) :
    List LineSegment2D :=
  if h : i + skip < l.length then
    let s := l.get ⟨i, by omega⟩
    let t := l.get ⟨i + skip, h⟩
    if angClose s t then
      if sqrtLt (s.endp.squaredDistTo t.start) distance_threshold then
        bfInner angClose distance_threshold skip i
          ((l.set i { s with endp := t.endp }).eraseIdx (i + skip))
      else if sqrtLt (t.endp.squaredDistTo s.start) distance_threshold then
        bfInner angClose distance_threshold skip i
          ((l.set i { s with start := t.start }).eraseIdx (i + skip))
      else
        bfInner angClose distance_threshold skip (i + 1) l
    else
      bfInner angClose distance_threshold skip (i + 1) l
  else l
termination_by l.length - i
decreasing_by
  all_goals
    first
      | omega
      | (simp only [List.length_eraseIdx, List.length_set]
         rw [if_pos (by omega : i + skip < l.length)]
         omega)

/-- `bfInner` never lengthens the list. -/
theorem bfInner_length_le (angClose : LineSegment2D → LineSegment2D → Bool)
    (d : ℚ) (skip i : ℕ) (l : List LineSegment2D) :
    (bfInner angClose d skip i l).length ≤ l.length := by
  induction i, l using bfInner.induct angClose d skip with
  | case1 i l h s t hang hd ih =>
      rw [bfInner, dif_pos h, if_pos hang, if_pos hd]
      refine le_trans ih ?_
      simp only [List.length_eraseIdx, List.length_set]
      rw [if_pos (by omega : i + skip < l.length)]
      omega
  | case2 i l h s t hang hd1 hd2 ih =>
      rw [bfInner, dif_pos h, if_pos hang, if_neg hd1, if_pos hd2]
      refine le_trans ih ?_
      simp only [List.length_eraseIdx, List.length_set]
      rw [if_pos (by omega : i + skip < l.length)]
      omega
  | case3 i l h s t hang hd1 hd2 ih =>
      rw [bfInner, dif_pos h, if_pos hang, if_neg hd1, if_neg hd2]
      exact ih
  | case4 i l h s t hang ih =>
      rw [bfInner, dif_pos h, if_neg hang]
      exact ih
  | case5 i l h =>
      rw [bfInner, dif_neg h]

/-- Outer loop of `Utils::mergeCloseLinesBF`: run the inner scan at each
separation `skip_index = 1, 2, ...` while the separation is below the
(current) list length. -/
def bfOuter (angClose : LineSegment2D → LineSegment2D → Bool)
    (distance_threshold : ℚ) (skip : ℕ) (l : List LineSegment2D) :
    List LineSegment2D :=
  if h : skip < l.length then
    bfOuter angClose distance_threshold (skip + 1)
      (bfInner angClose distance_threshold skip 0 l)
  else l
termination_by l.length - skip
decreasing_by
  have hb := bfInner_length_le angClose distance_threshold skip 0 l
  omega

/-- `Utils::mergeCloseLinesBF(line_segments, distance_threshold,
angle_threshold)`. -/
def mergeCloseLinesBF (angClose : LineSegment2D → LineSegment2D → Bool)
    (distance_threshold : ℚ) (line_segments : List LineSegment2D) :
    List LineSegment2D :=
  if line_segments.length < 2 then line_segments
  else bfOuter angClose distance_threshold 1 line_segments

/-- The merge test of `Utils::mergeCoLinearLines` on an ordered pair of
segments: end-to-start gap within `distance_threshold`, angular gate, and
both endpoints of the second segment within `perp_dist_threshold` of their
(unclipped) projections onto the first segment's supporting line. -/
def coLinearCond (angClose : LineSegment2D → LineSegment2D → Bool)
    (distance_threshold perp_dist_threshold : ℚ) (si sj : LineSegment2D) :
    Bool :=
  sqrtLt (si.endp.squaredDistTo sj.start) distance_threshold &&
  angClose si sj &&
  sqrtLt ((calcProjectedPointOnLine si.start si.endp sj.start false).squaredDistTo
    sj.start) perp_dist_threshold &&
  sqrtLt ((calcProjectedPointOnLine si.start si.endp sj.endp false).squaredDistTo
    sj.endp) perp_dist_threshold

/-- First pair `(i, j)`, `i ≠ j`, in the double-loop scan order of
`Utils::mergeCoLinearLines` whose merge test passes. -/
def findMergePair (cond : LineSegment2D → LineSegment2D → Bool)
    (l : List LineSegment2D) (i j : ℕ) : Option (ℕ × ℕ) :=
  if hi : i < l.length then
    if hj : j < l.length then
      if i ≠ j ∧ cond (l.get ⟨i, hi⟩) (l.get ⟨j, hj⟩) then some (i, j)
      else findMergePair cond l i (j + 1)
    else findMergePair cond l (i + 1) 0
  else none
termination_by (l.length - i, l.length - j)

/-- A found pair is in bounds. -/
theorem findMergePair_lt (cond : LineSegment2D → LineSegment2D → Bool)
    (l : List LineSegment2D) (i j : ℕ) :
    ∀ p, findMergePair cond l i j = some p →
      p.1 < l.length ∧ p.2 < l.length ∧ p.1 ≠ p.2 := by
  intro p
  induction i, j using findMergePair.induct cond l with
  | case1 i j hi hj hc =>
      rw [findMergePair, dif_pos hi, dif_pos hj, if_pos hc]
      intro hp
      cases hp
      exact ⟨hi, hj, hc.1⟩
  | case2 i j hi hj hc ih =>
      rw [findMergePair, dif_pos hi, dif_pos hj, if_neg hc]
      exact ih
  | case3 i j hi hj ih =>
      rw [findMergePair, dif_pos hi, dif_neg hj]
      exact ih
  | case4 i j hi =>
      rw [findMergePair, dif_neg hi]
      intro hp
      cases hp

/-- Fixed-point loop of `Utils::mergeCoLinearLines`: find the first passing
pair, absorb segment `j` into segment `i` (`i.end := j.end`, erase `j`) and
restart the full scan; stop when no pair passes. -/
def coLinearLoop (cond : LineSegment2D → LineSegment2D → Bool)
    (l : List LineSegment2D) : List LineSegment2D :=
  match findMergePair cond l 0 0 with
  | none => l
  | some (i, j) =>
      if hi : i < l.length then
        if hj : j < l.length then
          coLinearLoop cond
            ((l.set i { l.get ⟨i, hi⟩ with
                endp := (l.get ⟨j, hj⟩).endp }).eraseIdx j)
        else l
      else l
termination_by l.length
decreasing_by
  simp only [List.length_eraseIdx, List.length_set]
  rw [if_pos hj]
  omega

/-- `Utils::mergeCoLinearLines(line_segments, distance_threshold,
angle_threshold, perp_dist_threshold)`. -/
def mergeCoLinearLines (angClose : LineSegment2D → LineSegment2D → Bool)
    (distance_threshold perp_dist_threshold : ℚ)
    (line_segments : List LineSegment2D) : List LineSegment2D :=
  if line_segments.length < 2 then line_segments
  else coLinearLoop (coLinearCond angClose distance_threshold
    perp_dist_threshold) line_segments

/-! ### Consolidation lemmas -/

/-- The adjacent-merge loop never lengthens the list. -/
theorem mergeCloseLoop_length_le (angClose : LineSegment2D → LineSegment2D → Bool)
    (d : ℚ) (l : List LineSegment2D) :
    (mergeCloseLoop angClose d l).length ≤ l.length := by
  induction l using mergeCloseLoop.induct angClose d with
  | case1 => simp [mergeCloseLoop]
  | case2 s => simp [mergeCloseLoop]
  | case3 s1 s2 rest h ih =>
      rw [mergeCloseLoop, if_pos h]
      exact le_trans ih (by simp)
  | case4 s1 s2 rest h ih =>
      rw [mergeCloseLoop, if_neg h]
      simpa using ih

/-- The adjacent-merge loop of a nonempty list is nonempty and its first
segment keeps the first input segment's start point. -/
theorem mergeCloseLoop_head (angClose : LineSegment2D → LineSegment2D → Bool)
    (d : ℚ) (l : List LineSegment2D) (hne : l ≠ []) :
    mergeCloseLoop angClose d l ≠ [] ∧
      ((mergeCloseLoop angClose d l).headD default).start
        = (l.headD default).start := by
  induction l using mergeCloseLoop.induct angClose d with
  | case1 => exact absurd rfl hne
  | case2 s => simp [mergeCloseLoop]
  | case3 s1 s2 rest h ih =>
      rw [mergeCloseLoop, if_pos h]
      simpa using ih (by simp)
  | case4 s1 s2 rest h ih =>
      rw [mergeCloseLoop, if_neg h]
      simp

/-- Every adjacent pair of the list is separated by at least
`distance_threshold` (the gap test of `mergeCloseLines` fails on it). -/
def adjacentFar (d : ℚ) : List LineSegment2D → Prop
  | s1 :: s2 :: rest =>
      sqrtLt (s1.endp.squaredDistTo s2.start) d = false ∧
        adjacentFar d (s2 :: rest)
  | _ => True

/-- With the trivially-true angular gate, the adjacent-merge loop leaves no
adjacent pair within the distance threshold. -/
theorem mergeCloseLoop_adjacentFar (d : ℚ) (l : List LineSegment2D) :
    adjacentFar d (mergeCloseLoop angAlways d l) := by
  induction l using mergeCloseLoop.induct angAlways d with
  | case1 => simp [mergeCloseLoop, adjacentFar]
  | case2 s => simp [mergeCloseLoop, adjacentFar]
  | case3 s1 s2 rest h ih =>
      rw [mergeCloseLoop, if_pos h]
      exact ih
  | case4 s1 s2 rest h ih =>
      rw [mergeCloseLoop, if_neg h]
      have hgap : sqrtLt (s1.endp.squaredDistTo s2.start) d = false := by
        simpa [angAlways] using h
      obtain ⟨hne, hstart⟩ := mergeCloseLoop_head angAlways d (s2 :: rest) (by simp)
      rcases hm : mergeCloseLoop angAlways d (s2 :: rest) with _ | ⟨t, ts⟩
      · exact absurd hm hne
      · have hts : t.start = s2.start := by
          have := hstart
          rw [hm] at this
          simpa using this
        rw [hm] at ih
        exact ⟨by rwa [hts], ih⟩

/-- With the trivially-true angular gate, the adjacent-merge loop fixes any
list whose adjacent pairs are all beyond the distance threshold. -/
theorem mergeCloseLoop_of_adjacentFar (d : ℚ) (l : List LineSegment2D)
    (h : adjacentFar d l) : mergeCloseLoop angAlways d l = l := by
  induction l with
  | nil => rw [mergeCloseLoop]
  | cons s1 rest ih =>
      cases rest with
      | nil => rw [mergeCloseLoop]
      | cons s2 rest' =>
          obtain ⟨hgap, htail⟩ := h
          rw [mergeCloseLoop, if_neg (by simp [angAlways, hgap])]
          rw [ih htail]

/-- The brute-force outer loop never lengthens the list. -/
theorem bfOuter_length_le (angClose : LineSegment2D → LineSegment2D → Bool)
    (d : ℚ) (skip : ℕ) (l : List LineSegment2D) :
    (bfOuter angClose d skip l).length ≤ l.length := by
  induction skip, l using bfOuter.induct angClose d with
  | case1 skip l h ih =>
      rw [bfOuter, dif_pos h]
      exact le_trans ih (bfInner_length_le angClose d skip 0 l)
  | case2 skip l h =>
      rw [bfOuter, dif_neg h]

/-- The collinear fixed-point loop never lengthens the list. -/
theorem coLinearLoop_length_le (cond : LineSegment2D → LineSegment2D → Bool)
    (l : List LineSegment2D) :
    (coLinearLoop cond l).length ≤ l.length := by
  induction l using coLinearLoop.induct cond with
  | case1 l hp =>
      rw [coLinearLoop, hp]
  | case2 l i j hp hi hj ih =>
      rw [coLinearLoop, hp]
      simp only [dif_pos hi, dif_pos hj]
      refine le_trans ih ?_
      simp only [List.length_eraseIdx, List.length_set]
      rw [if_pos hj]
      omega
  | case3 l i j hp hi hj =>
      rw [coLinearLoop, hp]
      simp [dif_pos hi, dif_neg hj]
  | case4 l i j hp hi =>
      rw [coLinearLoop, hp]
      simp [dif_neg hi]

/-! ## Deterministic line regression (`Utils::fitLineRegression`) -/

/-- `pts[i]`: vector indexing, with the origin as (never-reached) default for
out-of-bounds access. -/
def getP (pts : List Point2D) (i : ℕ) : Point2D := pts.getD i Point2D.origin

/-- The index range `start_index .. end_index` (inclusive), as iterated by
`for (i = start_index; i <= end_index; i++)`. -/
def idxRange (start_index end_index : ℕ) : List ℕ :=
  List.range' start_index (end_index + 1 - start_index)

/-- `std::numeric_limits<float>::max()` as an exact rational
(`2^128 - 2^104`); `lowest()` is its negation. -/
def flt_max : ℚ := 2 ^ 128 - 2 ^ 104

/-- `Utils::calcMeanPoint(points, start_index, end_index)`: componentwise sum
over the inclusive range divided (through `Point2D::operator/`) by the range
size. -/
def calcMeanPoint (pts : List Point2D) (start_index end_index : ℕ) : Point2D :=
  let sum_pt := ((idxRange start_index end_index).map (getP pts)).foldl
    Point2D.add Point2D.origin
  sum_pt.divScalar ((end_index - start_index + 1 : ℕ) : ℚ)

/-- `Utils::fitLineRegression(pts, start_index, end_index, line_segment,
is_ordered)`, returning the fitted segment together with the returned error
(the sum of squared distances of the range's points to the segment).
Degenerate calls (fewer than 2 points, an index out of bounds, or an
inverted/empty range) return the default segment and error `0`. -/
def fitLineRegression (pts : List Point2D) (start_index end_index : ℕ)
    (is_ordered : Bool) : LineSegment2D × ℚ :=
  if pts.length < 2 ∨ pts.length ≤ start_index ∨ pts.length ≤ end_index ∨
      end_index ≤ start_index then
    (default, 0)
  else
    let mean_pt := calcMeanPoint pts start_index end_index
    let idxs := idxRange start_index end_index
    let start_pt : Point2D :=
      if is_ordered then getP pts start_index
      else
        ⟨(idxs.map (fun i => (getP pts i).x)).foldl min flt_max,
          (idxs.map (fun i => (getP pts i).y)).foldl min flt_max⟩
    let end_pt : Point2D :=
      if is_ordered then getP pts end_index
      else
        ⟨(idxs.map (fun i => (getP pts i).x)).foldl max (-flt_max),
          (idxs.map (fun i => (getP pts i).y)).foldl max (-flt_max)⟩
    let diff := end_pt.sub start_pt
    let swap_axis := decide (|diff.x| < |diff.y|)
    let numerator := (idxs.map (fun i =>
      ((getP pts i).x - mean_pt.x) * ((getP pts i).y - mean_pt.y))).sum
    let denominator :=
      if !swap_axis then
        (idxs.map (fun i => ((getP pts i).x - mean_pt.x) ^ 2)).sum
      else
        (idxs.map (fun i => ((getP pts i).y - mean_pt.y) ^ 2)).sum
    let denominator := if denominator < 1 / 10 ^ 8 then 1 / 10 ^ 8
      else denominator
    let line_segment : LineSegment2D :=
      if !swap_axis then
        let m := numerator / denominator
        let c := mean_pt.y - m * mean_pt.x
        ⟨⟨start_pt.x, m * start_pt.x + c⟩, ⟨end_pt.x, m * end_pt.x + c⟩⟩
      else
        let n := numerator / denominator
        let d := mean_pt.x - n * mean_pt.y
        ⟨⟨n * start_pt.y + d, start_pt.y⟩, ⟨n * end_pt.y + d, end_pt.y⟩⟩
    let error := (idxs.map (fun i =>
      line_segment.squaredMinDistTo (getP pts i))).sum
    (line_segment, error)

/-- The regression error of the inclusive range `s .. e` with
`is_ordered = true` — the currency of both piecewise engines. -/
def regErr (pts : List Point2D) (s e : ℕ) : ℚ :=
  (fitLineRegression pts s e true).2

/-! ## Piecewise segmentation — merge strategy
(`Utils::applyPiecewiseRegression`) -/

/-- Initial micro-segments over `len` points: pairs `(2i, 2i+1)` of adjacent
indices, the last segment extended to `len - 1` when fewer than two points
would remain after it (`(2i)+3 >= pts.size()`). -/
def initRanges (len : ℕ) : List (ℕ × ℕ) :=
  (List.range (len / 2)).map (fun i =>
    (2 * i, if len ≤ 2 * i + 3 then len - 1 else 2 * i + 1))

/-- Initial merge errors: for consecutive segments `i, i+1` the regression
error of their union. -/
def initMergeErrors (pts : List Point2D) (ranges : List (ℕ × ℕ)) : List ℚ :=
  (List.range (ranges.length - 1)).map (fun i =>
    regErr pts (ranges.getD i (0, 0)).1 (ranges.getD (i + 1) (0, 0)).2)

/-- Left-to-right scan keeping the index of the smallest value under a
strict comparison (`error < lowest_error`). -/
def argScanMin : ℕ → ℕ × ℚ → List ℚ → ℕ × ℚ
  | _, best, [] => best
  | j, best, e :: rest =>
      argScanMin (j + 1) (if e < best.2 then (j, e) else best) rest

/-- Index and value of the smallest error, scanning left to right with a
strict comparison from the sentinel `1e6` ("just a large number") — exactly
the argmin scan of `Utils::applyPiecewiseRegression`. -/
def argminErr (errors : List ℚ) : ℕ × ℚ := argScanMin 0 (0, 10 ^ 6) errors

/-- Left-to-right scan keeping the index of the largest value under a
strict comparison (`error > highest_error`). -/
def argScanMax : ℕ → ℕ × ℚ → List ℚ → ℕ × ℚ
  | _, best, [] => best
  | j, best, e :: rest =>
      argScanMax (j + 1) (if best.2 < e then (j, e) else best) rest

/-- Index and value of the largest error, scanning left to right with a
strict comparison from `0` — the argmax scan of the split engine. -/
def argmaxErr (errors : List ℚ) : ℕ × ℚ := argScanMax 0 (0, 0) errors

/-- One merge of `Utils::applyPiecewiseRegression`'s loop body at position
`i`: replace segments `i` and `i+1` by their union, refresh the merge error
with the left neighbour (`errors[i-1]`) and with the right neighbour
(`errors[i+1]`, when one exists), and erase `errors[i]`. -/
def mergeStep (pts : List Point2D) (ranges : List (ℕ × ℕ))
    (errors : List ℚ) (i : ℕ) : List (ℕ × ℕ) × List ℚ :=
  let merged := ((ranges.getD i (0, 0)).1, (ranges.getD (i + 1) (0, 0)).2)
  let ranges' := ranges.take i ++ [merged] ++ ranges.drop (i + 2)
  let errs1 :=
    if 0 < i then
      errors.set (i - 1)
        (regErr pts (ranges'.getD (i - 1) (0, 0)).1 merged.2)
    else errors
  let errs2 :=
    if i < ranges'.length - 1 then
      errs1.set (i + 1)
        (regErr pts merged.1 (ranges'.getD (i + 1) (0, 0)).2)
    else errs1
  (ranges', errs2.eraseIdx i)

/-- Merging strictly shrinks the segment list. -/
theorem mergeStep_fst_length (pts : List Point2D) (ranges : List (ℕ × ℕ))
    (errors : List ℚ) (i : ℕ) (h : i + 1 < ranges.length) :
    (mergeStep pts ranges errors i).1.length = ranges.length - 1 := by
  simp only [mergeStep, List.length_append, List.length_take,
    List.length_drop, List.length_cons, List.length_nil]
  omega

/-- Greedy agglomeration loop of `Utils::applyPiecewiseRegression`: while
more than one segment remains, pick the consecutive pair whose merged
regression error is smallest; stop when that error exceeds
`error_threshold`, otherwise merge the pair and refresh the neighbouring
merge errors. -/
def mergeLoop (pts : List Point2D) (error_threshold : ℚ)
    (ranges : List (ℕ × ℕ)) (errors : List ℚ) : List (ℕ × ℕ) :=
  if ranges.length ≤ 1 then ranges
  else if error_threshold < (argminErr errors).2 then ranges
  else if h : (argminErr errors).1 + 1 < ranges.length then
    mergeLoop pts error_threshold
      (mergeStep pts ranges errors (argminErr errors).1).1
      (mergeStep pts ranges errors (argminErr errors).1).2
  else ranges
termination_by ranges.length
decreasing_by
  rw [mergeStep_fst_length pts ranges errors (argminErr errors).1 h]
  omega

/-- `Utils::applyPiecewiseRegression(pts, error_threshold)`: bottom-up
agglomeration from micro-segments, then one ordered regression fit per
final range. -/
def applyPiecewiseRegression (pts : List Point2D) (error_threshold : ℚ) :
    List LineSegment2D :=
  if pts.length < 2 then []
  else
    let ranges := initRanges pts.length
    let final := mergeLoop pts error_threshold ranges
      (initMergeErrors pts ranges)
    final.map (fun r => (fitLineRegression pts r.1 r.2 true).1)

/-! ## Piecewise segmentation — split strategy
(`Utils::applyPiecewiseRegressionSplit`) -/

/-- The split engine's per-range record (`RegressionLineSegment`): an index
range and its stored fitted segment. -/
structure RegressionLineSegment where
  start_index : ℕ
  end_index : ℕ
  line_segment : LineSegment2D
deriving DecidableEq, Repr, Inhabited

/-- Split point of the range `s .. e`: the interior index (scanned from
`s+1` while `j+1 <= e`) of maximal squared distance to the chord through
`pts[s]` and `pts[e]` (clipped projection), starting from `s` with distance
`0` and updating on strictly larger distances. -/
def splitPoint (pts : List Point2D) (s e : ℕ) : ℕ :=
  ((List.range' (s + 1) (e - 1 - s)).foldl (fun acc j =>
    let dist := calcSquaredDistToLine (getP pts s) (getP pts e)
      (getP pts j) true
    if acc.2 < dist then (j, dist) else acc) (s, (0 : ℚ))).1

/-- Sum of the index spans of the records — the split loop's termination
measure (every split of a range of span `≥ 3` replaces span `e - s` by
`(k - s) + (e - (k+1))`). -/
def spanSum (segs : List RegressionLineSegment) : ℕ :=
  (segs.map (fun r => r.end_index - r.start_index)).sum

/-- A fold whose step either keeps the accumulator's index or moves it to
the scanned element returns the initial index or a scanned index. -/
theorem foldl_fst_mem {g : (ℕ × ℚ) → ℕ → (ℕ × ℚ)}
    (hg : ∀ acc j, (g acc j).1 = acc.1 ∨ (g acc j).1 = j)
    (l : List ℕ) (init : ℕ × ℚ) :
    (l.foldl g init).1 = init.1 ∨ (l.foldl g init).1 ∈ l := by
  induction l generalizing init with
  | nil => exact Or.inl rfl
  | cons j rest ih =>
      simp only [List.foldl_cons]
      rcases ih (g init j) with h | h
      · rcases hg init j with h2 | h2
        · exact Or.inl (h.trans h2)
        · rw [h2] at h
          exact Or.inr (by simp [h])
      · exact Or.inr (List.mem_cons_of_mem j h)

/-- Bounds of the split point: it lies between `s` and `e - 1` whenever the
range spans at least 3. -/
theorem splitPoint_bounds (pts : List Point2D) (s e : ℕ) (h : s + 3 ≤ e) :
    s ≤ splitPoint pts s e ∧ splitPoint pts s e ≤ e - 1 := by
  have hg : ∀ (acc : ℕ × ℚ) (j : ℕ),
      ((fun (acc : ℕ × ℚ) (j : ℕ) =>
        let dist := calcSquaredDistToLine (getP pts s) (getP pts e)
          (getP pts j) true
        if acc.2 < dist then (j, dist) else acc) acc j).1 = acc.1 ∨
      ((fun (acc : ℕ × ℚ) (j : ℕ) =>
        let dist := calcSquaredDistToLine (getP pts s) (getP pts e)
          (getP pts j) true
        if acc.2 < dist then (j, dist) else acc) acc j).1 = j := by
    intro acc j
    by_cases hc : acc.2 < calcSquaredDistToLine (getP pts s) (getP pts e)
      (getP pts j) true
    · exact Or.inr (by simp [hc])
    · exact Or.inl (by simp [hc])
  rw [splitPoint]
  rcases foldl_fst_mem hg (List.range' (s + 1) (e - 1 - s)) (s, (0 : ℚ))
    with hmem | hmem
  · rw [hmem]
    omega
  · rw [List.mem_range'_1] at hmem
    omega

/-- One split of `Utils::applyPiecewiseRegressionSplit`'s loop body at
position `i`: split the range at its farthest interior point, refit both
halves and store their segments and errors in place of the original
entries. -/
def splitStep (pts : List Point2D) (segs : List RegressionLineSegment)
    (errors : List ℚ) (i : ℕ) :
    List RegressionLineSegment × List ℚ :=
  let r := segs.getD i default
  let k := splitPoint pts r.start_index r.end_index
  let fit1 := fitLineRegression pts r.start_index k true
  let fit2 := fitLineRegression pts (k + 1) r.end_index true
  (segs.take i
      ++ [⟨r.start_index, k, fit1.1⟩, ⟨k + 1, r.end_index, fit2.1⟩]
      ++ segs.drop (i + 1),
    errors.take i ++ [fit1.2, fit2.2] ++ errors.drop (i + 1))

/-- Splitting a range of span at least 3 strictly shrinks the total span. -/
theorem splitStep_spanSum (pts : List Point2D)
    (segs : List RegressionLineSegment) (errors : List ℚ) (i : ℕ)
    (hlt : i < segs.length)
    (hspan : 3 ≤ (segs.getD i default).end_index
      - (segs.getD i default).start_index) :
    spanSum (splitStep pts segs errors i).1 < spanSum segs := by
  have hk := splitPoint_bounds pts (segs.getD i default).start_index
    (segs.getD i default).end_index (by omega)
  have hsplit : segs = segs.take i ++ segs.getD i default :: segs.drop (i + 1) := by
    conv_lhs => rw [← List.take_append_drop i segs]
    rw [List.drop_eq_getElem_cons hlt, List.getD_eq_getElem _ _ hlt]
  have h1 : spanSum segs
      = spanSum (segs.take i)
        + ((segs.getD i default).end_index - (segs.getD i default).start_index)
        + spanSum (segs.drop (i + 1)) := by
    conv_lhs => rw [hsplit]
    simp only [spanSum, List.map_append, List.sum_append, List.map_cons,
      List.sum_cons]
    omega
  rw [h1]
  simp only [splitStep, spanSum, List.map_append, List.sum_append,
    List.map_cons, List.sum_cons, List.map_nil, List.sum_nil]
  simp only [spanSum] at h1 ⊢
  omega

/-- Top-down division loop of `Utils::applyPiecewiseRegressionSplit`: while
the segment of highest regression error violates `error_threshold` and
spans at least 4 points (`end_index - start_index ≥ 3`), split it at the
farthest interior point from its chord, refit both halves, and store their
errors and fitted segments. -/
def splitLoop (pts : List Point2D) (error_threshold : ℚ)
    (segs : List RegressionLineSegment) (errors : List ℚ) :
    List RegressionLineSegment × List ℚ :=
  if (argmaxErr errors).2 < error_threshold then (segs, errors)
  else if hlt : (argmaxErr errors).1 < segs.length then
    if (segs.getD (argmaxErr errors).1 default).end_index
        - (segs.getD (argmaxErr errors).1 default).start_index < 3 then
      (segs, errors)
    else
      splitLoop pts error_threshold
        (splitStep pts segs errors (argmaxErr errors).1).1
        (splitStep pts segs errors (argmaxErr errors).1).2
  else (segs, errors)
termination_by spanSum segs
decreasing_by
  rename_i hspan
  exact splitStep_spanSum pts segs errors (argmaxErr errors).1 hlt (by omega)

/-- `Utils::applyPiecewiseRegressionSplit(pts, error_threshold)`: start from
the single whole-range segment; return it immediately when its error is
already below the threshold, otherwise run the split loop and return the
stored fitted segments of all final ranges of nonzero index span. -/
def applyPiecewiseRegressionSplit (pts : List Point2D)
    (error_threshold : ℚ) : List LineSegment2D :=
  if pts.length < 2 then []
  else
    let fit0 := fitLineRegression pts 0 (pts.length - 1) true
    if fit0.2 < error_threshold then [fit0.1]
    else
      let res := splitLoop pts error_threshold
        [⟨0, pts.length - 1, fit0.1⟩] [fit0.2]
      (res.1.filter (fun r => r.start_index ≠ r.end_index)).map
        (fun r => r.line_segment)

/-- `Utils::fitLineSegments(pts, regression_error_threshold,
distance_threshold, angle_threshold)`: the default pipeline — the
*merge-strategy* piecewise segmentation (`applyPiecewiseRegression`)
followed by the adjacent-merge consolidation (`mergeCloseLines`); the angle
threshold enters only through the consolidation's angular gate
`angClose`. -/
def fitLineSegments (angClose : LineSegment2D → LineSegment2D → Bool)
    (pts : List Point2D)
    (regression_error_threshold distance_threshold : ℚ) :
    List LineSegment2D :=
  mergeCloseLines angClose distance_threshold
    (applyPiecewiseRegression pts regression_error_threshold)

/-! ## Robust fitters (`Utils::fitLineRANSAC`, `Utils::fitCircleRANSAC`)

`std::rand()` is modelled by the stream `rands` and a cursor; the whole-cloud
overloads compute `pts.size() - 1` in `size_t` and pass it to an `unsigned`
(32-bit) parameter, modelled by `cloudEndIndex`.  Paths on which the C++
executes `rand() % 0` or indexes the vector out of bounds (both undefined
behaviour) return `none`. -/

/-- `end_index` as computed by the whole-cloud overloads: `pts.size() - 1`
in 64-bit `size_t` arithmetic, truncated to the 32-bit `unsigned`
parameter.  For an empty cloud this wraps to `2^32 - 1`. -/
def cloudEndIndex (len : ℕ) : ℕ := ((len + 2 ^ 64 - 1) % 2 ^ 64) % 2 ^ 32

/-- Iterations of `Utils::fitLineRANSAC`: draw two indices
`(std::rand() % num_of_points) + start_index`, score the line through them
by counting range points within `delta` of it (perpendicular distance to
the infinite line, `is_segment = false`), and keep the strictly best draw.
State: `(max_score, index_1, index_2)`. -/
def ransacLineLoop (pts : List Point2D) (start_index end_index : ℕ)
    (deltaSq : ℚ) (num : ℕ) (rands : ℕ → ℕ) :
    ℕ → ℕ → ℕ × ℕ × ℕ → ℕ × ℕ × ℕ
  | 0, _, state => state
  | itr + 1, cursor, state =>
      let ind1 := rands cursor % num + start_index
      let ind2 := rands (cursor + 1) % num + start_index
      let score := (idxRange start_index end_index).countP (fun i =>
        decide (calcSquaredDistToLine (getP pts ind1) (getP pts ind2)
          (getP pts i) false < deltaSq))
      if state.1 < score then
        ransacLineLoop pts start_index end_index deltaSq num rands itr
          (cursor + 2) (score, ind1, ind2)
      else
        ransacLineLoop pts start_index end_index deltaSq num rands itr
          (cursor + 2) state

/-- `Utils::fitLineRANSAC(pts, start_index, end_index, m, c, delta,
itr_limit)`, returning `(m, c, score)`.  A range with `end_index <=
start_index` returns the zero line with score `0` before any access; a
wrapped-to-zero `num_of_points` (the empty-cloud overload) or an
out-of-bounds `end_index` makes the C++ undefined (`rand() % 0`,
`pts[...]`), modelled as `none`. -/
def fitLineRANSAC (pts : List Point2D) (start_index end_index : ℕ)
    (delta : ℚ) (itr_limit : ℕ) (rands : ℕ → ℕ) : Option (ℚ × ℚ × ℚ) :=
  if end_index ≤ start_index then some (0, 0, 0)
  else
    let num := (end_index - start_index + 1) % 2 ^ 32
    if num = 0 ∨ pts.length ≤ end_index then none
    else
      let res := ransacLineLoop pts start_index end_index (delta * delta)
        num rands itr_limit 0 (0, start_index, end_index)
      let p1 := getP pts res.2.1
      let p2 := getP pts res.2.2
      let dx := p1.x - p2.x
      let dx := if |dx| < 1 / 10 ^ 8 then 1 / 10 ^ 8 else dx
      let m := (p1.y - p2.y) / dx
      let c := p1.y - m * p1.x
      some (m, c, (res.1 : ℚ) / (num : ℚ))

/-- The whole-cloud overload `Utils::fitLineRANSAC(pts, m, c, delta,
itr_limit)`: the range `0 .. pts.size() - 1` with the wrapped end index. -/
def fitLineRANSACCloud (pts : List Point2D) (delta : ℚ) (itr_limit : ℕ)
    (rands : ℕ → ℕ) : Option (ℚ × ℚ × ℚ) :=
  fitLineRANSAC pts 0 (cloudEndIndex pts.length) delta itr_limit rands

/-- The whole-cloud overload `Utils::fitLineRegression(pts, line_segment,
is_ordered)`: the range `0 .. pts.size() - 1` with the wrapped end index
(caught gracefully by the regression's own bounds guard). -/
def fitLineRegressionCloud (pts : List Point2D) (is_ordered : Bool) :
    LineSegment2D × ℚ :=
  fitLineRegression pts 0 (cloudEndIndex pts.length) is_ordered

/-- Modelled from the spec: `Circle` (`Circle.h` is absent from `src/`) —
`{x, y, r}` with the radius kept *squared* (`rSq = r²`) so the model stays
in `ℚ`; the zero circle is `⟨0, 0, 0⟩` in either representation. -/
structure Circle where
  x : ℚ
  y : ℚ
  rSq : ℚ
deriving DecidableEq, Repr, Inhabited

/-- Modelled from the spec: `Circle::fromPoints(a, b, c, circle)` constructs
the unique circle through three points (circumcenter and squared
circumradius) and fails — the iteration is skipped — when the three points
are collinear. -/
def Circle.fromPoints (a b c : Point2D) : Option Circle :=
  let D := 2 * (a.x * (b.y - c.y) + b.x * (c.y - a.y) + c.x * (a.y - b.y))
  if D = 0 then none
  else
    let ux := ((a.x ^ 2 + a.y ^ 2) * (b.y - c.y) + (b.x ^ 2 + b.y ^ 2)
      * (c.y - a.y) + (c.x ^ 2 + c.y ^ 2) * (a.y - b.y)) / D
    let uy := ((a.x ^ 2 + a.y ^ 2) * (c.x - b.x) + (b.x ^ 2 + b.y ^ 2)
      * (a.x - c.x) + (c.x ^ 2 + c.y ^ 2) * (b.x - a.x)) / D
    some ⟨ux, uy, (Point2D.mk ux uy).squaredDistTo a⟩

/-- Exact model of the circle inlier test
`fabs(p.distTo(circle) - circle.r) < delta`, i.e. `|sqrt s - sqrt t| < d`
for `s` the squared distance of the point to the circle's center and `t`
the squared radius (`s, t ≥ 0`):
`|√s - √t| < d ↔ 0 < d ∧ (s + t - d² < 0 ∨ (s + t - d²)² < 4·s·t)`. -/
def absSqrtSubLt (s t d : ℚ) : Bool :=
  decide (0 < d ∧ (s + t - d * d < 0 ∨ (s + t - d * d) ^ 2 < 4 * (s * t)))

/-- One `(std::rand() % num_of_points) + start_index` draw; returns the
index and the advanced stream cursor. -/
def drawIndex (rands : ℕ → ℕ) (num start_index cursor : ℕ) : ℕ × ℕ :=
  (rands cursor % num + start_index, cursor + 1)

/-- The redraw loops `while (ind_2 == ind_1)` / `while (ind_3 == ind_1 ||
ind_3 == ind_2)`: draw until the index avoids `avoid`, within `fuel`
draws (`none` when the stream prefix never yields a fresh index — the C++
would spin on). -/
def drawAvoiding (rands : ℕ → ℕ) (num start_index : ℕ) :
    ℕ → ℕ → List ℕ → Option (ℕ × ℕ)
  | 0, _, _ => none
  | fuel + 1, cursor, avoid =>
      let d := drawIndex rands num start_index cursor
      if d.1 ∈ avoid then drawAvoiding rands num start_index fuel d.2 avoid
      else some d

/-- Iterations of `Utils::fitCircleRANSAC`: draw three distinct indices,
construct the circle through them (skipping the iteration when they are
collinear), score by the inlier count, and keep the strictly best
candidate.  State: `(max_score, circle)` (the out-parameter keeps its prior
value until a candidate scores strictly higher). -/
def ransacCircleLoop (pts : List Point2D) (start_index end_index : ℕ)
    (delta : ℚ) (num : ℕ) (rands : ℕ → ℕ) (fuel : ℕ) :
    ℕ → ℕ → ℕ × Circle → Option (ℕ × Circle)
  | 0, _, state => some state
  | itr + 1, cursor, state =>
      let d1 := drawIndex rands num start_index cursor
      match drawAvoiding rands num start_index fuel d1.2 [d1.1] with
      | none => none
      | some d2 =>
          match drawAvoiding rands num start_index fuel d2.2
              [d1.1, d2.1] with
          | none => none
          | some d3 =>
              match Circle.fromPoints (getP pts d1.1) (getP pts d2.1)
                  (getP pts d3.1) with
              | none =>
                  ransacCircleLoop pts start_index end_index delta num rands
                    fuel itr d3.2 state
              | some candidate =>
                  let score := (idxRange start_index end_index).countP
                    (fun i => absSqrtSubLt
                      ((getP pts i).squaredDistTo ⟨candidate.x, candidate.y⟩)
                      candidate.rSq delta)
                  if state.1 < score then
                    ransacCircleLoop pts start_index end_index delta num
                      rands fuel itr d3.2 (score, candidate)
                  else
                    ransacCircleLoop pts start_index end_index delta num
                      rands fuel itr d3.2 state

/-- `Utils::fitCircleRANSAC(pts, start_index, end_index, circle, delta,
itr_limit)`, returning the fitted circle and the score.  A range of fewer
than 3 points (`end_index <= start_index + 1`) returns the zero circle with
score `0` before any access; a wrapped-to-zero `num_of_points` or an
out-of-bounds `end_index` is undefined in the C++, modelled as `none`. -/
def fitCircleRANSAC (pts : List Point2D) (start_index end_index : ℕ)
    (circle0 : Circle) (delta : ℚ) (itr_limit : ℕ) (rands : ℕ → ℕ)
    (fuel : ℕ) : Option (Circle × ℚ) :=
  if end_index ≤ start_index + 1 then some (⟨0, 0, 0⟩, 0)
  else
    let num := (end_index - start_index + 1) % 2 ^ 32
    if num = 0 ∨ pts.length ≤ end_index then none
    else
      match ransacCircleLoop pts start_index end_index delta num rands fuel
          itr_limit 0 (0, circle0) with
      | none => none
      | some res => some (res.2, (res.1 : ℚ) / (num : ℚ))

/-- The whole-cloud overload `Utils::fitCircleRANSAC(pts, circle, delta,
itr_limit)`. -/
def fitCircleRANSACCloud (pts : List Point2D) (circle0 : Circle)
    (delta : ℚ) (itr_limit : ℕ) (rands : ℕ → ℕ) (fuel : ℕ) :
    Option (Circle × ℚ) :=
  fitCircleRANSAC pts 0 (cloudEndIndex pts.length) circle0 delta itr_limit
    rands fuel

/-! ### RANSAC score bounds -/

/-- The best score of the line iterations never exceeds the number of
points in the range. -/
theorem ransacLineLoop_fst_le (pts : List Point2D) (s e : ℕ) (dsq : ℚ)
    (num : ℕ) (rands : ℕ → ℕ) (hnum : num = e + 1 - s) :
    ∀ (itr cursor : ℕ) (state : ℕ × ℕ × ℕ), state.1 ≤ num →
      (ransacLineLoop pts s e dsq num rands itr cursor state).1 ≤ num := by
  intro itr
  induction itr with
  | zero =>
      intro cursor state h
      rw [ransacLineLoop]
      exact h
  | succ n ih =>
      intro cursor state h
      rw [ransacLineLoop]
      split
      case isTrue hlt =>
          apply ih
          calc ((idxRange s e).countP _)
              ≤ (idxRange s e).length := List.countP_le_length _
            _ = num := by rw [idxRange, List.length_range', hnum]
      case isFalse hlt => exact ih _ _ h

/-- The best score of the circle iterations never exceeds the number of
points in the range. -/
theorem ransacCircleLoop_fst_le (pts : List Point2D) (s e : ℕ) (δ : ℚ)
    (num : ℕ) (rands : ℕ → ℕ) (fuel : ℕ) (hnum : num = e + 1 - s) :
    ∀ (itr cursor : ℕ) (state : ℕ × Circle), state.1 ≤ num →
      ∀ res, ransacCircleLoop pts s e δ num rands fuel itr cursor state
          = some res → res.1 ≤ num := by
  intro itr
  induction itr with
  | zero =>
      intro cursor state h res heq
      rw [ransacCircleLoop] at heq
      cases heq
      exact h
  | succ n ih =>
      intro cursor state h res heq
      rw [ransacCircleLoop] at heq
      split at heq
      · cases heq
      · split at heq
        · cases heq
        · split at heq
          · exact ih _ _ h _ heq
          · simp only [] at heq
            split at heq
            · refine ih _ _ ?_ _ heq
              exact le_of_le_of_eq (List.countP_le_length _)
                (by rw [idxRange, List.length_range']; omega)
            · exact ih _ _ h _ heq

/-! ## Test fixtures used by concrete evaluations -/

/-- The spec's clustering example: collinear points at unit spacing plus an
outlier at distance 8. -/
def unitSpacedPts : List Point2D := [⟨0, 0⟩, ⟨1, 0⟩, ⟨2, 0⟩, ⟨10, 0⟩]

/-- Four points evenly spaced around the unit circle, listed in increasing
`atan2` angle order (angles `-π/2, 0, π/2, π`); consecutive chord length is
`√2 < 3/2`. -/
def circleScanPts : List Point2D := [⟨0, -1⟩, ⟨1, 0⟩, ⟨0, 1⟩, ⟨-1, 0⟩]

/-- An ordered scan whose first and last points are close (distance `3/5`)
while the last point is far from every cluster tail met before it — the
wraparound merge fires on it at threshold `3/2`. -/
def wrapScanPts : List Point2D := [⟨0, 0⟩, ⟨7 / 5, 0⟩, ⟨10, 0⟩, ⟨0, 3 / 5⟩]

/-! ## Claim theorems: clustering -/

/-- C2, counterexample.  On the spec's own example — points
`(0,0),(1,0),(2,0),(10,0)` with `cluster_distance_threshold = 0.5` and
`min_cluster_size = 0` — `clusterPoints` returns four singleton clusters,
not the two clusters the claim states: adjacent points lie at distance `1`,
which is not below the threshold `0.5`. -/
theorem clusterPoints_spacedExample_half_threshold :
    clusterPoints unitSpacedPts (1 / 2) 0
        = [[⟨0, 0⟩], [⟨1, 0⟩], [⟨2, 0⟩], [⟨10, 0⟩]] ∧
      (clusterPoints unitSpacedPts (1 / 2) 0).length ≠ 2 := by
  have h : clusterPoints unitSpacedPts (1 / 2) 0
      = [[⟨0, 0⟩], [⟨1, 0⟩], [⟨2, 0⟩], [⟨10, 0⟩]] := by
    norm_num [clusterPoints, clusterPointsLoop, floodFill,
      Point2D.squaredDistTo, unitSpacedPts]
  exact ⟨h, by rw [h]; decide⟩

/-- C2, amended.  `clusterPoints` is deterministic (in the embedding it is a
pure function of the input order and thresholds; the source routine consumes
no randomness), and on `(0,0),(1,0),(2,0),(10,0)` with
`cluster_distance_threshold = 1.5` — a threshold exceeding the unit spacing —
and `min_cluster_size = 0` it returns exactly the clusters
`{(0,0),(1,0),(2,0)}` and `{(10,0)}`. -/
theorem clusterPoints_deterministic_spacedExample :
    (∀ (pts : List Point2D) (d : ℚ) (m : ℕ),
        clusterPoints pts d m = clusterPoints pts d m) ∧
      clusterPoints unitSpacedPts (3 / 2) 0
        = [[⟨0, 0⟩, ⟨1, 0⟩, ⟨2, 0⟩], [⟨10, 0⟩]] := by
  refine ⟨fun _ _ _ => rfl, ?_⟩
  norm_num [clusterPoints, clusterPointsLoop, floodFill,
    Point2D.squaredDistTo, unitSpacedPts]

/-- C4, counterexample.  A cluster whose size equals `min_cluster_size` is
dropped, against the claim's "every discovered cluster of size at least
`min_cluster_size` is returned": the single discovered cluster `{(0,0)}` has
size `1 ≥ 1` yet both clustering operations return nothing at
`min_cluster_size = 1`. -/
theorem cluster_min_size_boundary_dropped :
    clusterPoints [Point2D.origin] 1 0 = [[Point2D.origin]] ∧
      clusterPoints [Point2D.origin] 1 1 = [] ∧
      clusterOrderedPoints [Point2D.origin] 1 1 = [] := by
  refine ⟨?_, ?_, ?_⟩ <;>
    norm_num [clusterPoints, clusterPointsLoop, floodFill, clusterOrderedPoints,
      clusterOrderedPointsPass, orderedCollect, wrapAroundMerge,
      Point2D.squaredDistTo, Point2D.origin]

/-- C4, amended.  A discovered cluster is returned iff its size *strictly*
exceeds `min_cluster_size` (the source tests `cluster.size() >
min_cluster_size`): `clusterPoints` with minimum `m` equals the full
discovery run filtered to clusters of size `> m`, and every cluster either
operation returns has size `> m` (for `clusterOrderedPoints` the wraparound
step can additionally merge the kept first and last clusters, again of size
`> m`). -/
theorem cluster_min_size_strict_filter :
    ∀ (pts : List Point2D) (d : ℚ) (m : ℕ),
      clusterPoints pts d m
          = (clusterPoints pts d 0).filter (fun c => decide (m < c.length)) ∧
        (∀ c ∈ clusterPoints pts d m, m < c.length) ∧
        (∀ c ∈ clusterOrderedPoints pts d m, m < c.length) := by
  intro pts d m
  refine ⟨clusterPointsLoop_filter _ m pts, ?_, ?_⟩
  · intro c hc
    rw [clusterPoints, clusterPointsLoop_filter] at hc
    simpa using (List.mem_filter.1 hc).2
  · intro c hc
    rcases wrapAroundMerge_mem _ _ c hc with hmem | ⟨hlen, rfl⟩
    · exact clusterOrderedPointsPass_length _ m pts c hmem
    · have hne : clusterOrderedPointsPass (d ^ 2) m pts ≠ [] := by
        intro hnil
        rw [hnil] at hlen
        simp at hlen
      have hhead := clusterOrderedPointsPass_length _ m pts _
        (headD_mem_of_ne_nil hne [])
      simp only [List.length_append]
      omega

/-- C6.  The wraparound step of `clusterOrderedPoints`: when the linear pass
keeps more than one cluster and the first point of the first cluster is
within threshold of the last point of the last cluster, the last cluster is
merged into the first (prepended, and removed from the back); otherwise the
pass's clusters are returned unchanged.  In particular four points evenly
spaced around the unit circle in angle order, with threshold `3/2` larger
than the spacing `√2`, collapse into exactly one cluster. -/
theorem clusterOrderedPoints_wraparound :
    (∀ (pts : List Point2D) (d : ℚ) (m : ℕ),
      (1 < (clusterOrderedPointsPass (d ^ 2) m pts).length ∧
          (((clusterOrderedPointsPass (d ^ 2) m pts).headD []).headD
              Point2D.origin).squaredDistTo
            (((clusterOrderedPointsPass (d ^ 2) m pts).getLastD []).getLastD
              Point2D.origin) < d ^ 2 →
        clusterOrderedPoints pts d m
          = ((clusterOrderedPointsPass (d ^ 2) m pts).getLastD []
              ++ (clusterOrderedPointsPass (d ^ 2) m pts).headD [])
            :: ((clusterOrderedPointsPass (d ^ 2) m pts).tail).dropLast) ∧
      (¬ (1 < (clusterOrderedPointsPass (d ^ 2) m pts).length ∧
          (((clusterOrderedPointsPass (d ^ 2) m pts).headD []).headD
              Point2D.origin).squaredDistTo
            (((clusterOrderedPointsPass (d ^ 2) m pts).getLastD []).getLastD
              Point2D.origin) < d ^ 2) →
        clusterOrderedPoints pts d m
          = clusterOrderedPointsPass (d ^ 2) m pts)) ∧
    clusterOrderedPoints circleScanPts (3 / 2) 0 = [circleScanPts] := by
  refine ⟨fun pts d m => ⟨fun h => ?_, fun h => ?_⟩, ?_⟩
  · rw [clusterOrderedPoints, wrapAroundMerge, if_pos h]
  · rw [clusterOrderedPoints, wrapAroundMerge, if_neg h]
  · norm_num [clusterOrderedPoints, clusterOrderedPointsPass, orderedCollect,
      wrapAroundMerge, Point2D.squaredDistTo, Point2D.origin, circleScanPts]

/-- C6, witness: on the ordered scan `wrapScanPts` the pass keeps the three
clusters `[(0,0),(1.4,0)]`, `[(10,0)]`, `[(0,0.6)]`, and the wraparound step
merges the last into the first (distance `0.6 < 1.5`). -/
theorem clusterOrderedPoints_wraparound_witness :
    clusterOrderedPoints wrapScanPts (3 / 2) 0
      = [[⟨0, 3 / 5⟩, ⟨0, 0⟩, ⟨7 / 5, 0⟩], [⟨10, 0⟩]] := by
  have hpass : clusterOrderedPointsPass ((3 / 2 : ℚ) ^ 2) 0 wrapScanPts
      = [[⟨0, 0⟩, ⟨7 / 5, 0⟩], [⟨10, 0⟩], [⟨0, 3 / 5⟩]] := by
    norm_num [clusterOrderedPointsPass, orderedCollect,
      Point2D.squaredDistTo, wrapScanPts]
  have h := (clusterOrderedPoints_wraparound.1 wrapScanPts (3 / 2) 0).1
    ⟨by rw [hpass]; decide, by rw [hpass]; norm_num [Point2D.squaredDistTo]⟩
  rw [h, hpass]
  rfl

/-- C9.  The clusters discovered by `clusterPoints` place each input point
occurrence in exactly one cluster: before size filtering
(`min_cluster_size = 0`, every discovered cluster survives the strict size
test) their concatenation is a permutation of the input cloud, and for any
minimum size the returned clusters form a sub-multiset of the input — so no
point occurrence appears in two returned clusters and none comes from
outside the input. -/
theorem clusterPoints_clusters_partition_input :
    ∀ (pts : List Point2D) (d : ℚ) (m : ℕ),
      ((clusterPoints pts d 0).flatten).Perm pts ∧
        ((clusterPoints pts d m).flatten).Subperm pts := by
  intro pts d m
  have hperm := clusterPointsLoop_join_perm (d ^ 2) pts
  refine ⟨hperm, ?_⟩
  have hsub : (clusterPoints pts d m).Sublist (clusterPoints pts d 0) := by
    rw [clusterPoints, clusterPointsLoop_filter]
    exact List.filter_sublist _
  exact (sublist_join hsub).subperm.trans hperm.subperm

/-- Three collinear points followed by a sharp vertical kink — an input on
which the merge-strategy and split-strategy piecewise engines return
different segment lists at error threshold `1`. -/
def kinkPts : List Point2D := [⟨0, 0⟩, ⟨1, 0⟩, ⟨2, 0⟩, ⟨2, 3⟩]

/-! ### Concrete evaluations on `kinkPts` -/

theorem kink_fit03 : fitLineRegression kinkPts 0 3 true
    = (⟨⟨1, 0⟩, ⟨2, 3⟩⟩, 19 / 10) := by
  norm_num [fitLineRegression, calcMeanPoint, idxRange, getP,
    LineSegment2D.squaredMinDistTo, calcSquaredDistToLine,
    calcProjectedPointOnLine, clip, kinkPts, Point2D.squaredDistTo,
    Point2D.dotProduct, Point2D.sub, Point2D.add, Point2D.scale,
    Point2D.divScalar, Point2D.origin, List.range']

theorem kink_fit01 : fitLineRegression kinkPts 0 1 true
    = (⟨⟨0, 0⟩, ⟨1, 0⟩⟩, 0) := by
  norm_num [fitLineRegression, calcMeanPoint, idxRange, getP,
    LineSegment2D.squaredMinDistTo, calcSquaredDistToLine,
    calcProjectedPointOnLine, clip, kinkPts, Point2D.squaredDistTo,
    Point2D.dotProduct, Point2D.sub, Point2D.add, Point2D.scale,
    Point2D.divScalar, Point2D.origin, List.range']

theorem kink_fit23 : fitLineRegression kinkPts 2 3 true
    = (⟨⟨2, 0⟩, ⟨2, 3⟩⟩, 0) := by
  norm_num [fitLineRegression, calcMeanPoint, idxRange, getP,
    LineSegment2D.squaredMinDistTo, calcSquaredDistToLine,
    calcProjectedPointOnLine, clip, kinkPts, Point2D.squaredDistTo,
    Point2D.dotProduct, Point2D.sub, Point2D.add, Point2D.scale,
    Point2D.divScalar, Point2D.origin, List.range']

theorem kink_fit02 : fitLineRegression kinkPts 0 2 true
    = (⟨⟨0, 0⟩, ⟨2, 0⟩⟩, 0) := by
  norm_num [fitLineRegression, calcMeanPoint, idxRange, getP,
    LineSegment2D.squaredMinDistTo, calcSquaredDistToLine,
    calcProjectedPointOnLine, clip, kinkPts, Point2D.squaredDistTo,
    Point2D.dotProduct, Point2D.sub, Point2D.add, Point2D.scale,
    Point2D.divScalar, Point2D.origin, List.range']

theorem kink_fit33 : fitLineRegression kinkPts 3 3 true = (default, 0) := by
  norm_num [fitLineRegression, kinkPts]

theorem kink_piecewise : applyPiecewiseRegression kinkPts 1
    = [⟨⟨0, 0⟩, ⟨1, 0⟩⟩, ⟨⟨2, 0⟩, ⟨2, 3⟩⟩] := by
  have hlen : kinkPts.length = 4 := by norm_num [kinkPts]
  have hminit : initRanges 4 = [(0, 1), (2, 3)] := by
    norm_num [initRanges, List.range_succ]
  have hmerrs : initMergeErrors kinkPts [(0, 1), (2, 3)] = [19 / 10] := by
    norm_num [initMergeErrors, regErr, kink_fit03, List.range_succ]
  have hloop : mergeLoop kinkPts 1 [(0, 1), (2, 3)] [19 / 10]
      = [(0, 1), (2, 3)] := by
    rw [mergeLoop]
    norm_num [argminErr, argScanMin]
  rw [applyPiecewiseRegression, hlen]
  norm_num [hminit, hmerrs, hloop, kink_fit01, kink_fit23]

theorem kink_splitLoop :
    splitLoop kinkPts 1 [⟨0, 3, ⟨⟨1, 0⟩, ⟨2, 3⟩⟩⟩] [19 / 10]
      = ([⟨0, 2, ⟨⟨0, 0⟩, ⟨2, 0⟩⟩⟩, ⟨3, 3, default⟩], [0, 0]) := by
  have hsp : splitPoint kinkPts 0 3 = 2 := by
    norm_num [splitPoint, List.range', calcSquaredDistToLine,
      calcProjectedPointOnLine, clip, getP, kinkPts, Point2D.squaredDistTo,
      Point2D.dotProduct, Point2D.sub, Point2D.add, Point2D.scale,
      Point2D.origin]
  have hstep : splitStep kinkPts [⟨0, 3, ⟨⟨1, 0⟩, ⟨2, 3⟩⟩⟩] [19 / 10] 0
      = ([⟨0, 2, ⟨⟨0, 0⟩, ⟨2, 0⟩⟩⟩, ⟨3, 3, default⟩], [0, 0]) := by
    norm_num [splitStep, hsp, kink_fit02, kink_fit33]
  have hloop2 : splitLoop kinkPts 1
      [⟨0, 2, ⟨⟨0, 0⟩, ⟨2, 0⟩⟩⟩, ⟨3, 3, default⟩] [0, 0]
      = ([⟨0, 2, ⟨⟨0, 0⟩, ⟨2, 0⟩⟩⟩, ⟨3, 3, default⟩], [0, 0]) := by
    rw [splitLoop]
    norm_num [argmaxErr, argScanMax]
  rw [splitLoop]
  norm_num [argmaxErr, argScanMax, hstep, hloop2]

theorem kink_split : applyPiecewiseRegressionSplit kinkPts 1
    = [⟨⟨0, 0⟩, ⟨2, 0⟩⟩] := by
  have hlen : kinkPts.length = 4 := by norm_num [kinkPts]
  rw [applyPiecewiseRegressionSplit, hlen]
  norm_num [kink_fit03, kink_splitLoop]

/-- The spec's circle example: three non-collinear points on the circle of
center `(1, 0)` and radius `1`. -/
def specCirclePts : List Point2D := [⟨0, 0⟩, ⟨2, 0⟩, ⟨1, 1⟩]

/-- Three segments forming a corner: a horizontal unit segment, a vertical
unit segment starting at its end, and a diagonal continuation.  All direction
vectors are nonzero, so `angRightAngle` is the exact angular gate at
`angle_threshold = π/2` on every pair examined. -/
def cornerSegs : List LineSegment2D :=
  [⟨⟨0, 0⟩, ⟨1, 0⟩⟩, ⟨⟨1, 0⟩, ⟨1, 1⟩⟩, ⟨⟨1, 1⟩, ⟨2, 2⟩⟩]

/-! ### Split-loop invariants -/

/-- The index scan returns its initial index or an index of the scanned
suffix. -/
theorem argScanMax_fst (j : ℕ) (best : ℕ × ℚ) (l : List ℚ) :
    (argScanMax j best l).1 = best.1 ∨
      (j ≤ (argScanMax j best l).1 ∧
        (argScanMax j best l).1 < j + l.length) := by
  induction l generalizing j best with
  | nil => exact Or.inl rfl
  | cons e rest ih =>
      rw [argScanMax]
      by_cases hc : best.2 < e
      · rw [if_pos hc]
        rcases ih (j + 1) (j, e) with h | h
        · have h' : (argScanMax (j + 1) (j, e) rest).1 = j := h
          refine Or.inr ?_
          simp only [List.length_cons]
          omega
        · refine Or.inr ?_
          simp only [List.length_cons]
          omega
      · rw [if_neg hc]
        rcases ih (j + 1) best with h | h
        · exact Or.inl h
        · refine Or.inr ?_
          simp only [List.length_cons]
          omega

/-- On a nonempty error list the argmax index is in bounds. -/
theorem argmaxErr_lt (errors : List ℚ) (h : errors ≠ []) :
    (argmaxErr errors).1 < errors.length := by
  have hlen : 0 < errors.length := List.length_pos.2 h
  rw [argmaxErr]
  rcases argScanMax_fst 0 (0, 0) errors with h1 | h1
  · rw [h1]
    exact hlen
  · omega

/-- A split replaces one record by two and one error by two. -/
theorem splitStep_lengths (pts : List Point2D)
    (segs : List RegressionLineSegment) (errors : List ℚ) (i : ℕ)
    (h1 : i < segs.length) (h2 : i < errors.length) :
    (splitStep pts segs errors i).1.length = segs.length + 1 ∧
      (splitStep pts segs errors i).2.length = errors.length + 1 := by
  have ha : (segs.take i).length = i := by
    rw [List.length_take]
    exact Nat.min_eq_left (le_of_lt h1)
  have hb : (errors.take i).length = i := by
    rw [List.length_take]
    exact Nat.min_eq_left (le_of_lt h2)
  simp only [splitStep, List.length_append, ha, hb,
    List.length_drop, List.length_cons, List.length_nil]
  omega

/-- Post-state of the split loop, from any state whose error list is aligned
with a nonempty record list: alignment and nonemptiness are preserved, and
on exit the record of highest error either satisfies the error threshold or
spans fewer than 4 points (`end_index - start_index < 3`) — the loop stops
exactly on those two conditions. -/
theorem splitLoop_post (pts : List Point2D) (thr : ℚ)
    (segs : List RegressionLineSegment) (errors : List ℚ)
    (halign : errors.length = segs.length) (hne : segs ≠ []) :
    (splitLoop pts thr segs errors).2.length
        = (splitLoop pts thr segs errors).1.length ∧
      (splitLoop pts thr segs errors).1 ≠ [] ∧
      ((argmaxErr (splitLoop pts thr segs errors).2).2 < thr ∨
        ((splitLoop pts thr segs errors).1.getD
            (argmaxErr (splitLoop pts thr segs errors).2).1
            default).end_index
          - ((splitLoop pts thr segs errors).1.getD
              (argmaxErr (splitLoop pts thr segs errors).2).1
              default).start_index < 3) := by
  induction segs, errors using splitLoop.induct pts thr with
  | case1 segs errors hstop =>
      rw [splitLoop, if_pos hstop]
      exact ⟨halign, hne, Or.inl hstop⟩
  | case2 segs errors hstop hlt hspan =>
      rw [splitLoop, if_neg hstop, dif_pos hlt, if_pos hspan]
      exact ⟨halign, hne, Or.inr hspan⟩
  | case3 segs errors hstop hlt hspan ih =>
      rw [splitLoop, if_neg hstop, dif_pos hlt, if_neg hspan]
      have hi : (argmaxErr errors).1 < errors.length := by omega
      have hlens := splitStep_lengths pts segs errors (argmaxErr errors).1
        hlt hi
      refine ih ?_ ?_
      · omega
      · intro hnil
        have := congrArg List.length hnil
        simp only [List.length_nil] at this
        omega
  | case4 segs errors hstop hlt =>
      exfalso
      have hge : errors ≠ [] := by
        intro hnil
        apply hne
        rw [hnil] at halign
        simpa using (List.length_eq_zero.1 halign.symm)
      have := argmaxErr_lt errors hge
      omega

/-! ## Claim theorems: segment consolidation -/

/-- C3, counterexample.  `mergeCloseLines` is *not* idempotent: with
`distance_threshold = 1` and `angle_threshold = π/2` (whose angular test on
the nonzero-direction segments involved is exactly the dot-product gate
`angRightAngle`), the first pass over `cornerSegs` leaves the horizontal
segment and the merged segment `(1,0)–(2,2)` — the pair behind a merge is
never re-examined although the merge changed the second segment's angle —
and a second pass merges them into one segment. -/
theorem mergeCloseLines_not_idempotent_rightAngle :
    mergeCloseLines angRightAngle 1
        (mergeCloseLines angRightAngle 1 cornerSegs)
      ≠ mergeCloseLines angRightAngle 1 cornerSegs := by
  have h1 : mergeCloseLines angRightAngle 1 cornerSegs
      = [⟨⟨0, 0⟩, ⟨1, 0⟩⟩, ⟨⟨1, 0⟩, ⟨2, 2⟩⟩] := by
    norm_num [mergeCloseLines, mergeCloseLoop, angRightAngle, sqrtLt,
      Point2D.squaredDistTo, Point2D.dotProduct, LineSegment2D.dir,
      Point2D.sub, cornerSegs]
  have h2 : mergeCloseLines angRightAngle 1
      [(⟨⟨0, 0⟩, ⟨1, 0⟩⟩ : LineSegment2D), ⟨⟨1, 0⟩, ⟨2, 2⟩⟩]
      = [⟨⟨0, 0⟩, ⟨2, 2⟩⟩] := by
    norm_num [mergeCloseLines, mergeCloseLoop, angRightAngle, sqrtLt,
      Point2D.squaredDistTo, Point2D.dotProduct, LineSegment2D.dir,
      Point2D.sub]
  rw [h1, h2]
  decide

/-- C3, amended.  The adjacent-merge consolidation is idempotent whenever
the angular gate accepts every pair — i.e. for every
`angle_threshold > π`, where the source's `|calcShortestAngle(...)| <
angle_threshold` is identically true — and for every distance threshold:
after one pass every adjacent gap is at least `distance_threshold`, so a
second pass changes nothing.  (With an effective angular threshold the pass
is not idempotent, because a merge changes the absorbing segment's angle and
the pair behind it is not re-examined; see the counterexample.) -/
theorem mergeCloseLines_idempotent_trivial_gate :
    ∀ (d : ℚ) (l : List LineSegment2D),
      mergeCloseLines angAlways d (mergeCloseLines angAlways d l)
        = mergeCloseLines angAlways d l := by
  intro d l
  conv_lhs => rw [mergeCloseLines]
  split
  case isTrue h => rfl
  case isFalse h =>
      apply mergeCloseLoop_of_adjacentFar
      rw [mergeCloseLines]
      split
      case isTrue h2 =>
          match l, h2 with
          | [], _ => simp [adjacentFar]
          | [s], _ => simp [adjacentFar]
      case isFalse h2 => exact mergeCloseLoop_adjacentFar d l

/-- C10.  None of the three consolidation passes ever increases the number
of segments, and each leaves a list with fewer than two segments entirely
unchanged — for every angular gate and all thresholds. -/
theorem consolidation_passes_never_grow :
    ∀ (angClose : LineSegment2D → LineSegment2D → Bool) (d pd : ℚ)
      (l : List LineSegment2D),
      ((mergeCloseLines angClose d l).length ≤ l.length ∧
          (l.length < 2 → mergeCloseLines angClose d l = l)) ∧
        ((mergeCloseLinesBF angClose d l).length ≤ l.length ∧
          (l.length < 2 → mergeCloseLinesBF angClose d l = l)) ∧
        ((mergeCoLinearLines angClose d pd l).length ≤ l.length ∧
          (l.length < 2 → mergeCoLinearLines angClose d pd l = l)) := by
  intro angClose d pd l
  refine ⟨⟨?_, fun h => ?_⟩, ⟨?_, fun h => ?_⟩, ⟨?_, fun h => ?_⟩⟩
  · rw [mergeCloseLines]
    split
    · exact le_rfl
    · exact mergeCloseLoop_length_le angClose d l
  · rw [mergeCloseLines, if_pos h]
  · rw [mergeCloseLinesBF]
    split
    · exact le_rfl
    · exact bfOuter_length_le angClose d 1 l
  · rw [mergeCloseLinesBF, if_pos h]
  · rw [mergeCoLinearLines]
    split
    · exact le_rfl
    · exact coLinearLoop_length_le _ l
  · rw [mergeCoLinearLines, if_pos h]

/-! ## Claim theorems: pipeline and split engine -/

/-- C1, counterexample.  `fitLineSegments` is *not* the composition of the
split-strategy segmentation with the adjacent merge: on the point cloud
`(0,0),(1,0),(2,0),(2,3)` with regression error threshold `1`, distance
threshold `0` (under which `mergeCloseLines` merges nothing, for any angular
gate) and any angle threshold above `π` (gate `angAlways`), `fitLineSegments`
— which runs the *merge-strategy* engine `applyPiecewiseRegression` — returns
the two segments `(0,0)–(1,0)` and `(2,0)–(2,3)`, while the claimed
composition over `applyPiecewiseRegressionSplit` returns the single segment
`(0,0)–(2,0)`. -/
theorem fitLineSegments_ne_split_composition :
    fitLineSegments angAlways kinkPts 1 0
      ≠ mergeCloseLines angAlways 0 (applyPiecewiseRegressionSplit kinkPts 1) := by
  have hfinal : fitLineSegments angAlways kinkPts 1 0
      = [⟨⟨0, 0⟩, ⟨1, 0⟩⟩, ⟨⟨2, 0⟩, ⟨2, 3⟩⟩] := by
    rw [fitLineSegments, kink_piecewise]
    norm_num [mergeCloseLines, mergeCloseLoop, sqrtLt, angAlways]
  have hsm : mergeCloseLines angAlways 0
      (applyPiecewiseRegressionSplit kinkPts 1) = [⟨⟨0, 0⟩, ⟨2, 0⟩⟩] := by
    rw [kink_split]
    norm_num [mergeCloseLines]
  rw [hfinal, hsm]
  simp

/-- C1, amended.  The default entry point `fitLineSegments(pts,
regression_error_threshold, distance_threshold, angle_threshold)` is exactly
the composition of the *merge-strategy* piecewise segmentation
(`applyPiecewiseRegression` with the regression-error threshold) over the
full point cloud followed by the adjacent-merge consolidation
(`mergeCloseLines` with the distance threshold and the angular gate): for
every point cloud, every threshold pair and every angular gate, its result
equals that composition's result.  (The split-strategy composition differs;
see the counterexample.) -/
theorem fitLineSegments_is_merge_composition :
    ∀ (angClose : LineSegment2D → LineSegment2D → Bool)
      (pts : List Point2D) (e d : ℚ),
      fitLineSegments angClose pts e d
        = mergeCloseLines angClose d (applyPiecewiseRegression pts e) :=
  fun _ _ _ _ => rfl

/-- The split engine's initial state: the single whole-range record with its
ordered regression fit and error (`segments[0] = (0, pts.size()-1)`). -/
def initialSplitState (pts : List Point2D) :
    List RegressionLineSegment × List ℚ :=
  ([⟨0, pts.length - 1, (fitLineRegression pts 0 (pts.length - 1) true).1⟩],
    [(fitLineRegression pts 0 (pts.length - 1) true).2])

/-- The split loop's final state from the initial whole-range state. -/
def splitResult (pts : List Point2D) (thr : ℚ) :
    List RegressionLineSegment × List ℚ :=
  splitLoop pts thr (initialSplitState pts).1 (initialSplitState pts).2

/-- C7.  For a cloud of at least two points whose whole-range regression
error is not below the threshold, `applyPiecewiseRegressionSplit` runs the
split loop from the whole-range segment, and (a) the loop stops exactly when
the record of highest regression error has error below `error_threshold` or
spans fewer than 4 points (`end_index - start_index < 3`), and (b) the
returned list keeps the stored fitted segment of exactly those final records
whose index range has nonzero length (`start_index ≠ end_index`). -/
theorem applyPiecewiseRegressionSplit_stop :
    ∀ (pts : List Point2D) (thr : ℚ),
      2 ≤ pts.length →
      ¬ (fitLineRegression pts 0 (pts.length - 1) true).2 < thr →
      ((argmaxErr (splitResult pts thr).2).2 < thr ∨
        ((splitResult pts thr).1.getD
            (argmaxErr (splitResult pts thr).2).1 default).end_index
          - ((splitResult pts thr).1.getD
              (argmaxErr (splitResult pts thr).2).1 default).start_index
          < 3) ∧
      applyPiecewiseRegressionSplit pts thr
        = ((splitResult pts thr).1.filter
            (fun r => r.start_index ≠ r.end_index)).map
            (fun r => r.line_segment) := by
  intro pts thr h2 hb
  have hpost := splitLoop_post pts thr (initialSplitState pts).1
    (initialSplitState pts).2 (by simp [initialSplitState])
    (by simp [initialSplitState])
  refine ⟨hpost.2.2, ?_⟩
  rw [applyPiecewiseRegressionSplit,
    if_neg (by omega : ¬ pts.length < 2)]
  simp only [if_neg hb]
  simp only [splitResult, initialSplitState]

/-- C7, witness: on `kinkPts` with threshold `1` the loop splits once and
stops (both final errors are `0 < 1`), and the zero-span record `(3,3)` is
discarded, leaving the single stored segment `(0,0)–(2,0)`. -/
theorem applyPiecewiseRegressionSplit_stop_witness :
    applyPiecewiseRegressionSplit kinkPts 1 = [⟨⟨0, 0⟩, ⟨2, 0⟩⟩] := by
  have hlen : kinkPts.length - 1 = 3 := by norm_num [kinkPts]
  have h := applyPiecewiseRegressionSplit_stop kinkPts 1
    (by norm_num [kinkPts])
    (by rw [hlen, kink_fit03]; norm_num)
  rw [h.2]
  simp only [splitResult, initialSplitState, hlen, kink_fit03]
  norm_num [kink_splitLoop]

/-! ## Claim theorems: robust fitters -/

/-- C5.  Degenerate-range behaviour of the fitters.  The range versions
honour the claim: `fitLineRANSAC` with `end_index <= start_index` returns
`m = 0, c = 0` with score `0`; `fitCircleRANSAC` with fewer than 3 points
returns the zero circle with score `0`; `fitLineRegression` with fewer than
2 points or an inverted/out-of-bounds range returns the
default-constructed (coincident-origin-points) segment with error `0`, and
its whole-cloud overload on an empty cloud does the same.  But the
whole-cloud RANSAC overloads on an empty cloud do *not* return the zero
results: `pts.size() - 1` wraps to `UINT_MAX`, slips past the degenerate
guards, makes `num_of_points` wrap to `0`, and the C++ then executes
`rand() % 0` and out-of-bounds accesses — undefined behaviour, `none` in
the model. -/
theorem fitters_degenerate_inputs :
    (∀ (pts : List Point2D) (s e : ℕ) (δ : ℚ) (n : ℕ) (r : ℕ → ℕ),
        e ≤ s → fitLineRANSAC pts s e δ n r = some (0, 0, 0)) ∧
      (∀ (pts : List Point2D) (s e : ℕ) (c0 : Circle) (δ : ℚ) (n : ℕ)
          (r : ℕ → ℕ) (fuel : ℕ), e ≤ s + 1 →
        fitCircleRANSAC pts s e c0 δ n r fuel = some (⟨0, 0, 0⟩, 0)) ∧
      (∀ (pts : List Point2D) (s e : ℕ) (ord : Bool),
        pts.length < 2 ∨ pts.length ≤ s ∨ pts.length ≤ e ∨ e ≤ s →
        fitLineRegression pts s e ord = (default, 0)) ∧
      (∀ ord : Bool, fitLineRegressionCloud [] ord = (default, 0)) ∧
      (∀ (δ : ℚ) (n : ℕ) (r : ℕ → ℕ),
        fitLineRANSACCloud [] δ n r = none) ∧
      (∀ (c0 : Circle) (δ : ℚ) (n : ℕ) (r : ℕ → ℕ) (fuel : ℕ),
        fitCircleRANSACCloud [] c0 δ n r fuel = none) := by
  have hend : cloudEndIndex 0 = 2 ^ 32 - 1 := by norm_num [cloudEndIndex]
  refine ⟨?_, ?_, ?_, ?_, ?_, ?_⟩
  · intro pts s e δ n r hle
    rw [fitLineRANSAC, if_pos hle]
  · intro pts s e c0 δ n r fuel hle
    rw [fitCircleRANSAC, if_pos hle]
  · intro pts s e ord hdeg
    rw [fitLineRegression, if_pos hdeg]
  · intro ord
    rw [fitLineRegressionCloud, fitLineRegression,
      if_pos (Or.inl (by norm_num))]
  · intro δ n r
    rw [fitLineRANSACCloud]
    simp only [List.length_nil]
    rw [hend, fitLineRANSAC,
      if_neg (by norm_num : ¬ 2 ^ 32 - 1 ≤ 0)]
    simp only [if_pos (Or.inl (by norm_num : (2 ^ 32 - 1 - 0 + 1) % 2 ^ 32
      = 0))]
  · intro c0 δ n r fuel
    rw [fitCircleRANSACCloud]
    simp only [List.length_nil]
    rw [hend, fitCircleRANSAC,
      if_neg (by norm_num : ¬ 2 ^ 32 - 1 ≤ 0 + 1)]
    simp only [if_pos (Or.inl (by norm_num : (2 ^ 32 - 1 - 0 + 1) % 2 ^ 32
      = 0))]

/-- C8.  Every score the RANSAC fitters return lies in `[0, 1]`: the score
is the best inlier count divided by the number of points in the range, and
no candidate can collect more inliers than the range holds.  The
`2^32` bounds state that the `unsigned` index parameters hold
representable values; the conclusion is conditional on the call returning
at all (`some`), which excludes the undefined wrapped-range executions. -/
theorem ransac_scores_in_unit_interval :
    (∀ (pts : List Point2D) (s e : ℕ) (δ : ℚ) (n : ℕ) (r : ℕ → ℕ)
        (m c sc : ℚ), s < 2 ^ 32 → e < 2 ^ 32 →
        fitLineRANSAC pts s e δ n r = some (m, c, sc) →
        0 ≤ sc ∧ sc ≤ 1) ∧
      (∀ (pts : List Point2D) (s e : ℕ) (c0 : Circle) (δ : ℚ) (n : ℕ)
          (r : ℕ → ℕ) (fuel : ℕ) (circ : Circle) (sc : ℚ),
        s < 2 ^ 32 → e < 2 ^ 32 →
        fitCircleRANSAC pts s e c0 δ n r fuel = some (circ, sc) →
        0 ≤ sc ∧ sc ≤ 1) := by
  constructor
  · intro pts s e δ n r m c sc hs he heq
    rw [fitLineRANSAC] at heq
    by_cases h1 : e ≤ s
    · rw [if_pos h1] at heq
      simp only [Option.some.injEq, Prod.mk.injEq] at heq
      rw [← heq.2.2]
      norm_num
    · rw [if_neg h1] at heq
      by_cases h2 : (e - s + 1) % 2 ^ 32 = 0 ∨ pts.length ≤ e
      · simp only [if_pos h2] at heq
        cases heq
      · simp only [if_neg h2] at heq
        simp only [Option.some.injEq, Prod.mk.injEq] at heq
        have hnum0 : (e - s + 1) % 2 ^ 32 ≠ 0 := fun hc => h2 (Or.inl hc)
        have hnum : (e - s + 1) % 2 ^ 32 = e + 1 - s := by omega
        have hbnd := ransacLineLoop_fst_le pts s e (δ * δ)
          ((e - s + 1) % 2 ^ 32) r hnum n 0 (0, s, e) (by omega)
        rw [← heq.2.2]
        constructor
        · positivity
        · rw [div_le_one (by positivity)]
          exact_mod_cast hbnd
  · intro pts s e c0 δ n r fuel circ sc hs he heq
    rw [fitCircleRANSAC] at heq
    by_cases h1 : e ≤ s + 1
    · rw [if_pos h1] at heq
      simp only [Option.some.injEq, Prod.mk.injEq] at heq
      rw [← heq.2]
      norm_num
    · rw [if_neg h1] at heq
      by_cases h2 : (e - s + 1) % 2 ^ 32 = 0 ∨ pts.length ≤ e
      · simp only [if_pos h2] at heq
        cases heq
      · simp only [if_neg h2] at heq
        have hnum0 : (e - s + 1) % 2 ^ 32 ≠ 0 := fun hc => h2 (Or.inl hc)
        have hnum : (e - s + 1) % 2 ^ 32 = e + 1 - s := by omega
        rcases hloop : ransacCircleLoop pts s e δ ((e - s + 1) % 2 ^ 32) r
            fuel n 0 (0, c0) with _ | res
        · rw [hloop] at heq
          cases heq
        · rw [hloop] at heq
          simp only [Option.some.injEq, Prod.mk.injEq] at heq
          have hbnd := ransacCircleLoop_fst_le pts s e δ
            ((e - s + 1) % 2 ^ 32) r fuel hnum n 0 (0, c0) (by omega)
            res hloop
          rw [← heq.2]
          constructor
          · positivity
          · rw [div_le_one (by positivity)]
            exact_mod_cast hbnd

/-- C8, witness: concrete non-degenerate runs of both fitters.  On two unit
spaced points with a constant-zero stream, the line fit scores `1/2`
(`∈ [0, 1]`); on the spec's three circle points with the identity stream,
the circle fit recovers center `(1, 0)`, squared radius `1` and scores
`3/3 = 1` (`∈ [0, 1]`). -/
theorem ransac_scores_in_unit_interval_witness :
    fitLineRANSAC [⟨0, 0⟩, ⟨1, 0⟩] 0 1 1 1 (fun _ => 0)
        = some (0, 0, 1 / 2) ∧
      (0 ≤ (1 : ℚ) / 2 ∧ (1 : ℚ) / 2 ≤ 1) ∧
      fitCircleRANSAC specCirclePts 0 2 ⟨0, 0, 0⟩ 1 1 (fun k => k) 5
        = some (⟨1, 0, 1⟩, 1) ∧
      (0 ≤ (1 : ℚ) ∧ (1 : ℚ) ≤ 1) := by
  have hline : fitLineRANSAC [⟨0, 0⟩, ⟨1, 0⟩] 0 1 1 1 (fun _ => 0)
      = some (0, 0, 1 / 2) := by
    norm_num [fitLineRANSAC, ransacLineLoop, idxRange, getP,
      calcSquaredDistToLine, calcProjectedPointOnLine, clip,
      Point2D.squaredDistTo, Point2D.dotProduct, Point2D.sub, Point2D.add,
      Point2D.scale, Point2D.origin, List.range']
  have hcirc : fitCircleRANSAC specCirclePts 0 2 ⟨0, 0, 0⟩ 1 1 (fun k => k) 5
      = some (⟨1, 0, 1⟩, 1) := by
    norm_num [fitCircleRANSAC, ransacCircleLoop, drawAvoiding, drawIndex,
      Circle.fromPoints, absSqrtSubLt, idxRange, getP, specCirclePts,
      Point2D.squaredDistTo, List.range']
  exact ⟨hline,
    ransac_scores_in_unit_interval.1 _ 0 1 _ _ _ _ _ _ (by norm_num)
      (by norm_num) hline,
    hcirc,
    ransac_scores_in_unit_interval.2 _ 0 2 _ _ _ _ _ _ _ (by norm_num)
      (by norm_num) hcirc⟩

end GeometryCommon
